import Mathlib

/-!
Verification of the timelog reporting engine (scripts/report.mjs).

The engine is embedded shallowly:

* An event record is `Entry`.  Timestamps are UTC epoch milliseconds
  (`Int`); `Entry` models records whose `ts` field parses as a valid
  date, which is the domain the main claims quantify over.  A second
  type `EntryO` with `ts : Option Int` (where `none` models an invalid
  or missing timestamp, i.e. a JS `Invalid Date` whose numeric value is
  `NaN`) is used for the error-handling claims; on that domain the
  builder is fallible, returned as `Except Unit`, because
  `Date.prototype.toISOString` throws a `RangeError` on an invalid date.
* `dateKey` in the source returns `toISOString().slice(0, 10)`, the
  UTC calendar day of an instant.  That string is a bijective rendering
  of the UTC day number `fdiv ms 86400000`, so the day is modelled as
  that `Int`; no claim inspects the characters of the string.
* JS numbers are modelled as exact rationals; the division `gap / 1000`
  becomes `Rat.divInt gap 1000`.
* JS `Map` (insertion-ordered, keyed) is modelled as an association
  list: `Map.has` is a key-membership test, `Map.set` of a fresh key
  appends, and updating the value bound to an existing key rewrites the
  entry in place (`mapUpd`).  JS `Set` is modelled as a duplicate-free
  list with insertion at the end (`setInsert`); its `size` is the
  length.
* The truthiness tests of the source (`!e.session`, `s.project ||
  fallback`, `if (!key) continue`) treat `null`, `undefined` and the
  empty string as falsy; `entrySess`, `fallback`, `truthy` and `keyOf`
  reproduce that on `Option String`.
* `Array.prototype.sort` with the numeric comparator
  `new Date(a.ts) - new Date(b.ts)` is a stable sort by timestamp.  A
  stable sort for a total preorder has a unique result, so it is
  modelled by `List.insertionSort`, which is stable for `ts ≤ ts`.
-/

/-- An input event record with a valid timestamp, as read from the
JSONL log: `session`, `project`, `ticket`, `model` may be absent,
`ts` is the parsed timestamp in epoch milliseconds, `event` is the
event kind string (an absent kind behaves as a string different from
"UserPromptSubmit", so it is modelled as `String`). -/
structure Entry where
  session : Option String
  ts : Int
  event : String
  project : Option String
  ticket : Option String
  model : Option String
deriving Repr, DecidableEq

/-- A derived time slice, as built by `buildSlices` in the source:
session id, attribution (project, ticket, model) inherited from the
anchor event, the UTC day number of the anchor (source: `dateKey`),
elapsed seconds, and whether the anchor was a prompt submission. -/
structure Slice where
  session : String
  project : Option String
  ticket : Option String
  model : Option String
  date : Int
  seconds : ℚ
  isPrompt : Bool
deriving Repr, DecidableEq

/-- Source `dateKey`: `date.toISOString().slice(0, 10)`, the UTC
calendar day, modelled as the UTC day number of the instant. -/
def dateKey (ms : Int) : Int :=
  Int.fdiv ms 86400000

/-- Source expression `gap / 1000` (JS division of milliseconds by
1000), as an exact rational. -/
def secondsOf (gapMs : Int) : ℚ :=
  Rat.divInt gapMs 1000

/-- Source guard `if (!e.session) continue`: the session key of an
entry, with the JS-falsy values (absent field, empty string) mapped
to `none`. -/
def entrySess (e : Entry) : Option String :=
  match e.session with
  | none => none
  | some s => if s = "" then none else some s

/-- One step of the session-grouping loop in `buildSlices`: skip an
entry with a falsy session, push onto the existing group for its
session id, or append a fresh group (JS `Map` insertion order). -/
def groupUpd {α : Type} (key : α → Option String) (acc : List (String × List α)) (e : α) :
    List (String × List α) :=
  match key e with
  | none => acc
  | some sid =>
    if sid ∈ acc.map Prod.fst then
      acc.map (fun p => if p.1 = sid then (p.1, p.2 ++ [e]) else p)
    else acc ++ [(sid, [e])]

/-- The session-grouping loop of `buildSlices` (`for (const e of
entries)` building the `bySession` map). -/
def groupFold {α : Type} (key : α → Option String) :
    List (String × List α) → List α → List (String × List α)
  | acc, [] => acc
  | acc, e :: rest => groupFold key (groupUpd key acc e) rest

/-- The keys a run of the grouping loop adds to an accumulator whose
key set is `ks`, in first-occurrence order. -/
def newKeys {α : Type} (key : α → Option String) : List String → List α → List String
  | _, [] => []
  | ks, e :: rest =>
    match key e with
    | none => newKeys key ks rest
    | some sid =>
      if sid ∈ ks then newKeys key ks rest else sid :: newKeys key (ks ++ [sid]) rest

/-- The sublist of elements carrying the grouping key `k`. -/
def filterKey {α : Type} (key : α → Option String) (k : String) (l : List α) : List α :=
  l.filter (fun e => decide (key e = some k))

/-- Source sort `events.sort((a, b) => new Date(a.ts) - new Date(b.ts))`:
a stable sort ascending by timestamp. -/
def sortTs (l : List Entry) : List Entry :=
  List.insertionSort (fun a b => a.ts ≤ b.ts) l

/-- The active slice pushed by `buildSlices` when `0 < gap < breakMs`:
anchored at `curr`, `seconds = gap / 1000`, `isPrompt` iff the anchor
is a `UserPromptSubmit`. -/
def activeSliceOf (sid : String) (curr : Entry) (gap : Int) : Slice :=
  { session := sid
    project := curr.project
    ticket := curr.ticket
    model := curr.model
    date := dateKey curr.ts
    seconds := secondsOf gap
    isPrompt := decide (curr.event = "UserPromptSubmit") }

/-- The zero-duration prompt slice pushed by `buildSlices` for a prompt
anchor at a break, or for a trailing prompt event. -/
def promptSliceOf (sid : String) (e : Entry) : Slice :=
  { session := sid
    project := e.project
    ticket := e.ticket
    model := e.model
    date := dateKey e.ts
    seconds := 0
    isPrompt := true }

/-- The contribution of one consecutive pair `(curr, next)` in the walk
of `buildSlices`: an active slice when `0 < gap < breakMs`, otherwise a
zero-duration slice when the anchor is a prompt, otherwise nothing. -/
def pairSlice (sid : String) (breakMs : Int) (curr next : Entry) : Option Slice :=
  let gap := next.ts - curr.ts
  if 0 < gap ∧ gap < breakMs then
    some (activeSliceOf sid curr gap)
  else if curr.event = "UserPromptSubmit" then
    some (promptSliceOf sid curr)
  else
    none

/-- The per-session walk of `buildSlices`: consecutive pairs
`(events[i], events[i+1])`, then the trailing-prompt rule for the last
event. -/
def sessionSlices (sid : String) (breakMs : Int) : List Entry → List Slice
  | [] => []
  | [e] => if e.event = "UserPromptSubmit" then [promptSliceOf sid e] else []
  | curr :: next :: rest =>
    (pairSlice sid breakMs curr next).toList ++ sessionSlices sid breakMs (next :: rest)

/-- Source `buildSlices(entries, breakMs)`: group by session id (JS
`Map` insertion order), sort each group by timestamp (stable), walk the
pairs, concatenate the slices of each session. -/
def buildSlices (entries : List Entry) (breakMs : Int) : List Slice :=
  (groupFold entrySess [] entries).flatMap (fun p => sessionSlices p.1 breakMs (sortTs p.2))

/-- Sum of the sub-threshold positive consecutive gaps of an event
sequence, in seconds: the quantity the conservation claim compares the
slice durations against. -/
def gapSecondsSum (breakMs : Int) : List Entry → ℚ
  | [] => 0
  | [_] => 0
  | curr :: next :: rest =>
    (if 0 < next.ts - curr.ts ∧ next.ts - curr.ts < breakMs
      then secondsOf (next.ts - curr.ts) else 0)
      + gapSecondsSum breakMs (next :: rest)

/-- Association-list lookup, the read operation of the JS `Map`
model. -/
def lookupKey {κ β : Type} [DecidableEq κ] : List (κ × β) → κ → Option β
  | [], _ => none
  | p :: rest, k => if p.1 = k then some p.2 else lookupKey rest k

/-- JS `if (!map.has(k)) map.set(k, v)`: append a fresh key with an
initial value, leave the list unchanged when the key is present. -/
def ensureKey {κ β : Type} [DecidableEq κ] (m : List (κ × β)) (k : κ) (v : β) : List (κ × β) :=
  if k ∈ m.map Prod.fst then m else m ++ [(k, v)]

/-- In-place update of the value bound to key `k` (mutation of the
object held in a JS `Map`). -/
def mapUpd {κ β : Type} [DecidableEq κ] (m : List (κ × β)) (k : κ) (f : β → β) : List (κ × β) :=
  m.map (fun p => if p.1 = k then (p.1, f p.2) else p)

/-- JS `Set.add`: append unless already present. -/
def setInsert (l : List String) (x : String) : List String :=
  if x ∈ l then l else l ++ [x]

/-- The accumulator of `aggregate`: the distinct session-id set (as a
duplicate-free list), prompt count, active seconds. -/
structure AggAcc where
  sessions : List String
  prompts : Nat
  active : ℚ
deriving Repr, DecidableEq

/-- The result row of `aggregate`: `sessions.size`, prompt count,
active seconds. -/
structure AggOut where
  sessions : Nat
  prompts : Nat
  active : ℚ
deriving Repr, DecidableEq

/-- Source guard `if (!key) continue` in `aggregate`: the grouping key
of a slice under `keyFn`, with JS-falsy keys (`null`, `undefined`,
empty string) mapped to `none`. -/
def keyOf (keyFn : Slice → Option String) (s : Slice) : Option String :=
  match keyFn s with
  | none => none
  | some k => if k = "" then none else some k

/-- Folding one slice into a group of `aggregate`: add the session id
to the set, count the prompt, add the seconds. -/
def addSlice (g : AggAcc) (s : Slice) : AggAcc :=
  { sessions := setInsert g.sessions s.session
    prompts := g.prompts + (if s.isPrompt then 1 else 0)
    active := g.active + s.seconds }

/-- One iteration of the loop in `aggregate`. -/
def aggUpd (keyFn : Slice → Option String) (acc : List (String × AggAcc)) (s : Slice) :
    List (String × AggAcc) :=
  match keyOf keyFn s with
  | none => acc
  | some k => mapUpd (ensureKey acc k { sessions := [], prompts := 0, active := 0 }) k
      (fun g => addSlice g s)

/-- The grouping loop of `aggregate`. -/
def aggLoop (keyFn : Slice → Option String) :
    List (String × AggAcc) → List Slice → List (String × AggAcc)
  | acc, [] => acc
  | acc, s :: rest => aggLoop keyFn (aggUpd keyFn acc s) rest

/-- Source `aggregate(slices, keyFn)`: fold the slices into keyed
groups, then report the session-set cardinality, prompt count and
active-second total per key. -/
def aggregate (slices : List Slice) (keyFn : Slice → Option String) : List (String × AggOut) :=
  (aggLoop keyFn [] slices).map
    (fun p => (p.1, { sessions := p.2.sessions.length
                      prompts := p.2.prompts
                      active := p.2.active }))

/-- JS `o || fallbackLabel` on an optional string field. -/
def fallback (o : Option String) (d : String) : String :=
  match o with
  | none => d
  | some v => if v = "" then d else v

/-- JS `s.ticket || null`: the ticket with falsy values mapped to
`none`. -/
def truthy (o : Option String) : Option String :=
  match o with
  | none => none
  | some v => if v = "" then none else some v

/-- The per-ticket accumulator of `buildDayProjectTicket`. -/
structure TicketGroup where
  prompts : Nat
  active : ℚ
deriving Repr, DecidableEq

/-- The per-(day, project) accumulator of `buildDayProjectTicket`.  The
source keys the inner map by the string `date + "\t" + project`; within
one day map that key is in bijection with the project label, so the
model keys by the project label and keeps `date`, `project` as stored
fields, as the source does. -/
structure ProjGroup where
  date : Int
  project : String
  prompts : Nat
  active : ℚ
  tickets : List (String × TicketGroup)
deriving Repr, DecidableEq

/-- Folding one slice into a ticket group of `buildDayProjectTicket`. -/
def tgAdd (tg : TicketGroup) (s : Slice) : TicketGroup :=
  { prompts := tg.prompts + (if s.isPrompt then 1 else 0)
    active := tg.active + s.seconds }

/-- Folding one slice into a `ProjGroup`: always counted at project
level; counted at ticket level only when the slice has a truthy
ticket (`tkt` is `s.ticket || null` in the source). -/
def pgAdd (pg : ProjGroup) (tkt : Option String) (s : Slice) : ProjGroup :=
  let pg1 : ProjGroup :=
    { pg with prompts := pg.prompts + (if s.isPrompt then 1 else 0)
              active := pg.active + s.seconds }
  match tkt with
  | none => pg1
  | some t =>
    let ts1 := mapUpd (ensureKey pg1.tickets t { prompts := 0, active := 0 }) t (fun tg => tgAdd tg s)
    { pg1 with tickets := ts1 }

/-- One iteration of the loop in `buildDayProjectTicket`. -/
def bdptUpd (days : List (Int × List (String × ProjGroup))) (s : Slice) :
    List (Int × List (String × ProjGroup)) :=
  let proj := fallback s.project "(unknown)"
  let tkt := truthy s.ticket
  mapUpd (ensureKey days s.date []) s.date (fun dm =>
    mapUpd (ensureKey dm proj
        { date := s.date, project := proj, prompts := 0, active := 0, tickets := [] }) proj
      (fun pg => pgAdd pg tkt s))

/-- The fold of `buildDayProjectTicket` over the slices. -/
def bdptLoop :
    List (Int × List (String × ProjGroup)) → List Slice → List (Int × List (String × ProjGroup))
  | acc, [] => acc
  | acc, s :: rest => bdptLoop (bdptUpd acc s) rest

/-- Source `buildDayProjectTicket(slices)`: day → project rollup with a
nested ticket map; slices without a truthy ticket are counted only at
project level. -/
def buildDayProjectTicket (slices : List Slice) : List (Int × List (String × ProjGroup)) :=
  bdptLoop [] slices

/-- The per-ticket accumulator of `buildTimesheet`. -/
structure TsTicket where
  sessions : List String
  prompts : Nat
  active : ℚ
deriving Repr, DecidableEq

/-- The per-project accumulator of `buildTimesheet`. -/
structure TsProj where
  sessions : List String
  prompts : Nat
  active : ℚ
  tickets : List (String × TsTicket)
deriving Repr, DecidableEq

/-- Folding one slice into a ticket group of `buildTimesheet`. -/
def ttAdd (tg : TsTicket) (s : Slice) : TsTicket :=
  { sessions := setInsert tg.sessions s.session
    prompts := tg.prompts + (if s.isPrompt then 1 else 0)
    active := tg.active + s.seconds }

/-- Folding one slice into a project group of `buildTimesheet`: counted
at project level and under the ticket label `s.ticket || "(untracked)"`. -/
def tpAdd (pg : TsProj) (s : Slice) : TsProj :=
  let pg1 : TsProj :=
    { pg with sessions := setInsert pg.sessions s.session
              prompts := pg.prompts + (if s.isPrompt then 1 else 0)
              active := pg.active + s.seconds }
  let tkt := fallback s.ticket "(untracked)"
  let ts1 := mapUpd (ensureKey pg1.tickets tkt { sessions := [], prompts := 0, active := 0 }) tkt (fun tg => ttAdd tg s)
  { pg1 with tickets := ts1 }

/-- One iteration of the loop in `buildTimesheet`. -/
def tsUpd (projects : List (String × TsProj)) (s : Slice) : List (String × TsProj) :=
  let proj := fallback s.project "(unknown)"
  mapUpd (ensureKey projects proj { sessions := [], prompts := 0, active := 0, tickets := [] })
    proj (fun pg => tpAdd pg s)

/-- The fold of `buildTimesheet` over the slices. -/
def tsLoop : List (String × TsProj) → List Slice → List (String × TsProj)
  | acc, [] => acc
  | acc, s :: rest => tsLoop (tsUpd acc s) rest

/-- Source `buildTimesheet(slices)`: project → ticket rollup with the
sentinel labels "(unknown)" and "(untracked)". -/
def buildTimesheet (slices : List Slice) : List (String × TsProj) :=
  tsLoop [] slices

/-- Sum of the ticket-level active seconds of a `ProjGroup`. -/
def ticketActiveSum (ts : List (String × TicketGroup)) : ℚ :=
  (ts.map (fun p => p.2.active)).sum

/-- Sum of the ticket-level prompt counts of a `ProjGroup`. -/
def ticketPromptSum (ts : List (String × TicketGroup)) : Nat :=
  (ts.map (fun p => p.2.prompts)).sum

/-- Sum of the ticket-level active seconds of a `TsProj`. -/
def tsTicketActiveSum (ts : List (String × TsTicket)) : ℚ :=
  (ts.map (fun p => p.2.active)).sum

/-- Sum of the ticket-level prompt counts of a `TsProj`. -/
def tsTicketPromptSum (ts : List (String × TsTicket)) : Nat :=
  (ts.map (fun p => p.2.prompts)).sum

/-- The per-file line loop of `parseEntries`: blank lines (JS
`!line.trim()`) are skipped without a parse attempt, lines whose parse
fails are skipped silently, parsed values are kept in line order.  The
JSON parser itself is a platform function, taken as the oracle
`parse`. -/
def parseLines {α : Type} (parse : String → Option α) : List String → List α
  | [] => []
  | line :: rest =>
    if line.toList.all Char.isWhitespace then parseLines parse rest
    else
      match parse line with
      | some v => v :: parseLines parse rest
      | none => parseLines parse rest

/-- Source `parseEntries(files)`.  A file on disk is `some lines`; a
missing file is `none`: `createReadStream` on a missing path emits an
`ENOENT` error, which the function does not handle, so the call fails
instead of returning (modelled as `Except.error`). -/
def parseEntries {α : Type} (parse : String → Option α) :
    List (Option (List String)) → Except Unit (List α)
  | [] => .ok []
  | none :: _ => .error ()
  | some lines :: rest =>
    match parseEntries parse rest with
    | .ok tail => .ok (parseLines parse lines ++ tail)
    | .error e => .error e

/-- An input event record whose timestamp may be invalid: `ts = none`
models a `ts` field that is absent or does not parse as a date (JS
`new Date(...)` gives `Invalid Date`, numeric value `NaN`). -/
structure EntryO where
  session : Option String
  ts : Option Int
  event : String
  project : Option String
  ticket : Option String
  model : Option String
deriving Repr, DecidableEq

/-- Session key of an `EntryO`, with JS-falsy values mapped to
`none`. -/
def entrySessO (e : EntryO) : Option String :=
  match e.session with
  | none => none
  | some s => if s = "" then none else some s

/-- The sort comparator on possibly-invalid timestamps: with an invalid
date the JS comparator returns `NaN`, which the ECMAScript sort treats
as 0, i.e. the elements compare equal and a stable sort keeps their
input order. -/
def tsLEO (a b : EntryO) : Bool :=
  match a.ts, b.ts with
  | some x, some y => decide (x ≤ y)
  | _, _ => true

/-- Stable sort of possibly-invalid-timestamp events. -/
def sortTsO (l : List EntryO) : List EntryO :=
  List.insertionSort (fun a b => tsLEO a b = true) l

/-- The zero-duration prompt slice for an `EntryO` anchor: `dateKey`
calls `toISOString`, which throws a `RangeError` when the anchor
timestamp is invalid. -/
def promptSliceOfO (sid : String) (e : EntryO) : Except Unit Slice :=
  match e.ts with
  | some t =>
    .ok { session := sid
          project := e.project
          ticket := e.ticket
          model := e.model
          date := dateKey t
          seconds := 0
          isPrompt := true }
  | none => .error ()

/-- The contribution of one consecutive pair when timestamps may be
invalid: with either timestamp invalid the gap is `NaN`, every numeric
comparison on it is false, so the walk falls through to the prompt
branch; pushing a slice for a prompt anchor whose own timestamp is
invalid throws in `dateKey`. -/
def pairSliceO (sid : String) (breakMs : Int) (curr next : EntryO) :
    Except Unit (Option Slice) :=
  match curr.ts, next.ts with
  | some t0, some t1 =>
    let gap := t1 - t0
    if 0 < gap ∧ gap < breakMs then
      .ok (some { session := sid
                  project := curr.project
                  ticket := curr.ticket
                  model := curr.model
                  date := dateKey t0
                  seconds := secondsOf gap
                  isPrompt := decide (curr.event = "UserPromptSubmit") })
    else if curr.event = "UserPromptSubmit" then
      (promptSliceOfO sid curr).map some
    else
      .ok none
  | _, _ =>
    if curr.event = "UserPromptSubmit" then
      (promptSliceOfO sid curr).map some
    else
      .ok none

/-- The per-session walk over possibly-invalid-timestamp events. -/
def sessionSlicesO (sid : String) (breakMs : Int) : List EntryO → Except Unit (List Slice)
  | [] => .ok []
  | [e] =>
    if e.event = "UserPromptSubmit" then (promptSliceOfO sid e).map (fun s => [s])
    else .ok []
  | curr :: next :: rest =>
    match pairSliceO sid breakMs curr next with
    | .error u => .error u
    | .ok head =>
      match sessionSlicesO sid breakMs (next :: rest) with
      | .error u => .error u
      | .ok tail => .ok (head.toList ++ tail)

/-- Concatenation of the per-session walks over the grouped sessions,
propagating a thrown `RangeError`. -/
def concatSlicesO (breakMs : Int) : List (String × List EntryO) → Except Unit (List Slice)
  | [] => .ok []
  | p :: rest =>
    match sessionSlicesO p.1 breakMs (sortTsO p.2) with
    | .error u => .error u
    | .ok s =>
      match concatSlicesO breakMs rest with
      | .error u => .error u
      | .ok t => .ok (s ++ t)

/-- `buildSlices` over records whose timestamps may be invalid: the
same grouping, sorting and walking, fallible because `dateKey` throws
on an invalid anchor. -/
def buildSlicesO (entries : List EntryO) (breakMs : Int) : Except Unit (List Slice) :=
  concatSlicesO breakMs (groupFold entrySessO [] entries)

/-- An interleaving of two lists: the merged list keeps the relative
order of each source list, as a merged event log keeps the input order
of each of its sources. -/
inductive Interleave {α : Type} : List α → List α → List α → Prop
  | nil : Interleave [] [] []
  | left {a : α} {l r t : List α} : Interleave l r t → Interleave (a :: l) r (a :: t)
  | right {a : α} {l r t : List α} : Interleave l r t → Interleave l (a :: r) (a :: t)

/-! ### Basic facts about the grouping loop -/

theorem filterKey_nil {α : Type} (key : α → Option String) (k : String) :
    filterKey key k [] = [] := rfl

theorem filterKey_cons_of_eq {α : Type} {key : α → Option String} {k : String} {e : α}
    (l : List α) (h : key e = some k) :
    filterKey key k (e :: l) = e :: filterKey key k l := by
  simp [filterKey, h]

theorem filterKey_cons_of_ne {α : Type} {key : α → Option String} {k : String} {e : α}
    (l : List α) (h : key e ≠ some k) :
    filterKey key k (e :: l) = filterKey key k l := by
  simp [filterKey, h]

theorem mem_filterKey {α : Type} {key : α → Option String} {k : String} {l : List α} {e : α} :
    e ∈ filterKey key k l ↔ e ∈ l ∧ key e = some k := by
  simp [filterKey, List.mem_filter]

theorem filterKey_idem {α : Type} (key : α → Option String) (k : String) (l : List α) :
    filterKey key k (filterKey key k l) = filterKey key k l := by
  apply List.filter_eq_self.mpr
  intro e he
  simp only [decide_eq_true_eq]
  exact (mem_filterKey.mp he).2

theorem filterKey_eq_nil_iff {α : Type} {key : α → Option String} {k : String} {l : List α} :
    filterKey key k l = [] ↔ ∀ e ∈ l, key e ≠ some k := by
  simp [filterKey, List.filter_eq_nil_iff]

theorem newKeys_not_mem {α : Type} (key : α → Option String) :
    ∀ (l : List α) (ks : List String), ∀ k ∈ newKeys key ks l, k ∉ ks := by
  intro l
  induction l with
  | nil => intro ks k hk; simp [newKeys] at hk
  | cons e rest ih =>
    intro ks k hk
    cases he : key e with
    | none =>
      simp only [newKeys, he] at hk
      exact ih ks k hk
    | some sid =>
      simp only [newKeys, he] at hk
      by_cases hs : sid ∈ ks
      · rw [if_pos hs] at hk
        exact ih ks k hk
      · rw [if_neg hs] at hk
        rcases List.mem_cons.mp hk with h | h
        · subst h; exact hs
        · intro hmem
          exact ih (ks ++ [sid]) k h (List.mem_append_left _ hmem)

theorem newKeys_nodup {α : Type} (key : α → Option String) :
    ∀ (l : List α) (ks : List String), (newKeys key ks l).Nodup := by
  intro l
  induction l with
  | nil => intro ks; simp [newKeys]
  | cons e rest ih =>
    intro ks
    cases he : key e with
    | none => simp only [newKeys, he]; exact ih ks
    | some sid =>
      simp only [newKeys, he]
      by_cases hs : sid ∈ ks
      · rw [if_pos hs]; exact ih ks
      · rw [if_neg hs]
        refine List.nodup_cons.mpr ⟨?_, ih (ks ++ [sid])⟩
        intro hmem
        exact newKeys_not_mem key rest (ks ++ [sid]) sid hmem
          (List.mem_append_right _ (List.mem_singleton.mpr rfl))

theorem newKeys_mem_iff {α : Type} (key : α → Option String) :
    ∀ (l : List α) (ks : List String) (k : String),
      k ∈ newKeys key ks l ↔ k ∉ ks ∧ ∃ e ∈ l, key e = some k := by
  intro l
  induction l with
  | nil => intro ks k; simp [newKeys]
  | cons e rest ih =>
    intro ks k
    cases he : key e with
    | none =>
      simp only [newKeys, he, ih]
      constructor
      · rintro ⟨hks, x, hx, hkx⟩
        exact ⟨hks, x, List.mem_cons_of_mem _ hx, hkx⟩
      · rintro ⟨hks, x, hx, hkx⟩
        rcases List.mem_cons.mp hx with h | h
        · subst h; rw [he] at hkx; cases hkx
        · exact ⟨hks, x, h, hkx⟩
    | some sid =>
      simp only [newKeys, he]
      by_cases hs : sid ∈ ks
      · rw [if_pos hs, ih]
        constructor
        · rintro ⟨hks, x, hx, hkx⟩
          exact ⟨hks, x, List.mem_cons_of_mem _ hx, hkx⟩
        · rintro ⟨hks, x, hx, hkx⟩
          rcases List.mem_cons.mp hx with h | h
          · subst h; rw [he] at hkx
            cases hkx
            exact absurd hs hks
          · exact ⟨hks, x, h, hkx⟩
      · rw [if_neg hs]
        constructor
        · intro hmem
          rcases List.mem_cons.mp hmem with h | h
          · subst h
            exact ⟨hs, e, List.mem_cons_self _ _, he⟩
          · rcases (ih (ks ++ [sid]) k).mp h with ⟨hks, x, hx, hkx⟩
            refine ⟨fun hc => hks (List.mem_append_left _ hc), x, List.mem_cons_of_mem _ hx, hkx⟩
        · rintro ⟨hks, x, hx, hkx⟩
          rcases List.mem_cons.mp hx with h | h
          · subst h
            rw [he] at hkx
            cases hkx
            exact List.mem_cons_self _ _
          · by_cases hksid : k = sid
            · subst hksid; exact List.mem_cons_self _ _
            · refine List.mem_cons_of_mem _ ((ih (ks ++ [sid]) k).mpr ⟨?_, x, h, hkx⟩)
              intro hc
              rcases List.mem_append.mp hc with hc | hc
              · exact hks hc
              · exact hksid (List.mem_singleton.mp hc)

theorem newKeys_nil_of_mem {α : Type} (key : α → Option String) :
    ∀ (l : List α) (ks : List String),
      (∀ e ∈ l, ∀ k, key e = some k → k ∈ ks) → newKeys key ks l = [] := by
  intro l
  induction l with
  | nil => intro ks _; rfl
  | cons e rest ih =>
    intro ks h
    cases he : key e with
    | none =>
      simp only [newKeys, he]
      exact ih ks (fun x hx => h x (List.mem_cons_of_mem _ hx))
    | some sid =>
      simp only [newKeys, he, if_pos (h e (List.mem_cons_self _ _) sid he)]
      exact ih ks (fun x hx => h x (List.mem_cons_of_mem _ hx))

theorem map_fst_append_entry {α : Type} (l : List (String × List α)) (sid : String) (e : α) :
    (l.map (fun p => if p.1 = sid then (p.1, p.2 ++ [e]) else p)).map Prod.fst =
      l.map Prod.fst := by
  induction l with
  | nil => rfl
  | cons p rest ih => by_cases h : p.1 = sid <;> simp [h, ih]

theorem groupFold_eq {α : Type} (key : α → Option String) :
    ∀ (l : List α) (acc : List (String × List α)), (acc.map Prod.fst).Nodup →
      groupFold key acc l =
        acc.map (fun p => (p.1, p.2 ++ filterKey key p.1 l)) ++
          (newKeys key (acc.map Prod.fst) l).map (fun k => (k, filterKey key k l)) := by
  intro l
  induction l with
  | nil =>
    intro acc _
    simp [groupFold, newKeys, filterKey]
  | cons e rest ih =>
    intro acc hnd
    show groupFold key (groupUpd key acc e) rest = _
    cases he : key e with
    | none =>
      have hupd : groupUpd key acc e = acc := by simp [groupUpd, he]
      rw [hupd, ih acc hnd]
      congr 1
      · apply List.map_congr_left
        intro p _
        rw [filterKey_cons_of_ne _ (by simp [he])]
      · have hk1 : newKeys key (acc.map Prod.fst) (e :: rest) =
            newKeys key (acc.map Prod.fst) rest := by
          simp only [newKeys, he]
        rw [hk1]
        apply List.map_congr_left
        intro k _
        rw [filterKey_cons_of_ne _ (by simp [he])]
    | some sid =>
      by_cases hs : sid ∈ acc.map Prod.fst
      · have hupd : groupUpd key acc e =
            acc.map (fun p => if p.1 = sid then (p.1, p.2 ++ [e]) else p) := by
          simp [groupUpd, he, hs]
        have hnd2 :
            ((acc.map (fun p => if p.1 = sid then (p.1, p.2 ++ [e]) else p)).map Prod.fst).Nodup := by
          rw [map_fst_append_entry]; exact hnd
        rw [hupd, ih _ hnd2, map_fst_append_entry]
        congr 1
        · rw [List.map_map]
          apply List.map_congr_left
          intro p _
          by_cases hpsid : p.1 = sid
          · have hkey : key e = some p.1 := by rw [he, hpsid]
            simp only [Function.comp, if_pos hpsid, filterKey_cons_of_eq _ hkey]
            rw [List.append_assoc]
            rfl
          · simp only [Function.comp, if_neg hpsid]
            rw [filterKey_cons_of_ne _ (by rw [he]; intro hc; exact hpsid (Option.some.inj hc).symm)]
        · have hk1 : newKeys key (acc.map Prod.fst) (e :: rest) =
              newKeys key (acc.map Prod.fst) rest := by
            simp only [newKeys, he, if_pos hs]
          rw [hk1]
          apply List.map_congr_left
          intro k hk
          have hknot : k ∉ acc.map Prod.fst := newKeys_not_mem key rest _ k hk
          have : k ≠ sid := fun hc => hknot (hc ▸ hs)
          rw [filterKey_cons_of_ne _ (by rw [he]; intro hc; exact this (Option.some.inj hc).symm)]
      · have hupd : groupUpd key acc e = acc ++ [(sid, [e])] := by
          simp [groupUpd, he, hs]
        have hnd2 : ((acc ++ [(sid, [e])]).map Prod.fst).Nodup := by
          rw [List.map_append]
          refine List.Nodup.append hnd (by simp) ?_
          intro x hx hy
          simp only [List.map_cons, List.map_nil, List.mem_singleton] at hy
          exact hs (hy ▸ hx)
        rw [hupd, ih _ hnd2]
        have hkeys : (acc ++ [(sid, [e])]).map Prod.fst = acc.map Prod.fst ++ [sid] := by
          simp
        rw [hkeys]
        have hk1 : newKeys key (acc.map Prod.fst) (e :: rest) =
            sid :: newKeys key (acc.map Prod.fst ++ [sid]) rest := by
          simp only [newKeys, he, if_neg hs]
        rw [hk1]
        rw [List.map_append, List.map_cons]
        have hmap1 : acc.map (fun p => (p.1, p.2 ++ filterKey key p.1 rest)) =
            acc.map (fun p => (p.1, p.2 ++ filterKey key p.1 (e :: rest))) := by
          apply List.map_congr_left
          intro p hp
          have hpne : p.1 ≠ sid := by
            intro hc
            exact hs (hc ▸ List.mem_map_of_mem Prod.fst hp)
          rw [filterKey_cons_of_ne _ (by rw [he]; intro hc; exact hpne (Option.some.inj hc).symm)]
        have hmap2 : ([(sid, [e])] : List (String × List α)).map
              (fun p => (p.1, p.2 ++ filterKey key p.1 rest)) =
            [(sid, filterKey key sid (e :: rest))] := by
          simp [filterKey_cons_of_eq _ he]
        have hmap3 : (newKeys key (acc.map Prod.fst ++ [sid]) rest).map
              (fun k => (k, filterKey key k rest)) =
            (newKeys key (acc.map Prod.fst ++ [sid]) rest).map
              (fun k => (k, filterKey key k (e :: rest))) := by
          apply List.map_congr_left
          intro k hk
          have hknot : k ∉ acc.map Prod.fst ++ [sid] := newKeys_not_mem key rest _ k hk
          have hkne : k ≠ sid := by
            intro hc
            exact hknot (List.mem_append_right _ (hc ▸ List.mem_singleton.mpr rfl))
          rw [filterKey_cons_of_ne _ (by rw [he]; intro hc; exact hkne (Option.some.inj hc).symm)]
        rw [hmap1, hmap2, hmap3] at *
        simp [List.append_assoc]
        rw [filterKey_cons_of_eq _ he]

/-! ### The slices of one session inside `buildSlices` -/

theorem buildSlices_eq (entries : List Entry) (br : Int) :
    buildSlices entries br =
      (newKeys entrySess [] entries).flatMap
        (fun k => sessionSlices k br (sortTs (filterKey entrySess k entries))) := by
  unfold buildSlices
  rw [groupFold_eq entrySess entries [] (by simp)]
  simp only [List.map_nil, List.nil_append, List.flatMap]
  induction newKeys entrySess [] entries with
  | nil => rfl
  | cons k ks ih => simp_all

theorem sessionSlices_session (sid : String) (br : Int) :
    ∀ (evs : List Entry), ∀ s ∈ sessionSlices sid br evs, s.session = sid := by
  intro evs
  induction evs with
  | nil => intro s hs; simp [sessionSlices] at hs
  | cons x xs ih =>
    cases xs with
    | nil =>
      intro s hs
      by_cases hx : x.event = "UserPromptSubmit" <;>
        simp [sessionSlices, hx] at hs
      subst hs; rfl
    | cons y ys =>
      intro s hs
      rw [sessionSlices, List.mem_append] at hs
      rcases hs with hs | hs
      · unfold pairSlice at hs
        by_cases hgap : 0 < y.ts - x.ts ∧ y.ts - x.ts < br
        · simp only [if_pos hgap, Option.toList_some, List.mem_singleton] at hs
          subst hs; rfl
        · by_cases hx : x.event = "UserPromptSubmit" <;>
            simp only [if_neg hgap, hx, if_pos, if_neg, if_true, if_false,
              Option.toList_some, Option.toList_none, List.mem_singleton,
              List.not_mem_nil] at hs
          · subst hs; rfl
      · exact ih s hs

theorem flatMap_filter_single (sid : String) :
    ∀ (keys : List String) (g : String → List Slice), keys.Nodup →
      (∀ k, ∀ s ∈ g k, s.session = k) →
      (keys.flatMap g).filter (fun s => decide (s.session = sid)) =
        if sid ∈ keys then g sid else [] := by
  intro keys
  induction keys with
  | nil => intro g _ _; simp
  | cons k ks ih =>
    intro g hnd hg
    have hnd2 := List.nodup_cons.mp hnd
    rw [List.flatMap_cons, List.filter_append]
    by_cases hk : k = sid
    · subst hk
      have h1 : (g k).filter (fun s => decide (s.session = k)) = g k :=
        List.filter_eq_self.mpr (fun s hs => by simp [hg k s hs])
      have h2 : (ks.flatMap g).filter (fun s => decide (s.session = k)) = [] := by
        rw [ih g hnd2.2 hg, if_neg hnd2.1]
      rw [h1, h2, if_pos (List.mem_cons_self _ _)]
      simp
    · have h1 : (g k).filter (fun s => decide (s.session = sid)) = [] := by
        apply List.filter_eq_nil_iff.mpr
        intro s hs
        simp [hg k s hs, hk]
      rw [h1, ih g hnd2.2 hg, List.nil_append]
      by_cases hm : sid ∈ ks
      · rw [if_pos hm, if_pos (List.mem_cons_of_mem _ hm)]
      · rw [if_neg hm, if_neg ?_]
        intro hc
        rcases List.mem_cons.mp hc with hc | hc
        · exact hk hc.symm
        · exact hm hc

theorem buildSlices_filter_session (entries : List Entry) (br : Int) (sid : String) :
    (buildSlices entries br).filter (fun s => decide (s.session = sid)) =
      buildSlices (filterKey entrySess sid entries) br := by
  rw [buildSlices_eq, buildSlices_eq]
  rw [flatMap_filter_single sid _ _ (newKeys_nodup entrySess entries [])
    (fun k s hs => sessionSlices_session k br _ s hs)]
  by_cases hmem : sid ∈ newKeys entrySess [] entries
  · rw [if_pos hmem]
    have hne : filterKey entrySess sid entries ≠ [] := by
      rcases (newKeys_mem_iff entrySess entries [] sid).mp hmem with ⟨-, e, he, hke⟩
      intro hc
      rw [filterKey_eq_nil_iff] at hc
      exact hc e he hke
    have hconst : ∀ x ∈ filterKey entrySess sid entries, entrySess x = some sid :=
      fun x hx => (mem_filterKey.mp hx).2
    have hsingle : newKeys entrySess [] (filterKey entrySess sid entries) = [sid] := by
      cases hl : filterKey entrySess sid entries with
      | nil => exact absurd hl hne
      | cons x xs =>
        have hx : entrySess x = some sid := hconst x (hl ▸ List.mem_cons_self _ _)
        have hxs : ∀ e ∈ xs, ∀ k, entrySess e = some k → k ∈ ([] ++ [sid] : List String) := by
          intro e he k hke
          have : entrySess e = some sid := hconst e (hl ▸ List.mem_cons_of_mem _ he)
          rw [this] at hke
          simp [Option.some.inj hke]
        simp only [newKeys, hx, List.not_mem_nil, if_false, if_neg]
        rw [newKeys_nil_of_mem entrySess xs ([] ++ [sid]) hxs]
    rw [hsingle]
    simp only [List.flatMap_cons, List.flatMap_nil, List.append_nil]
    rw [filterKey_idem]
  · rw [if_neg hmem]
    have hnil : filterKey entrySess sid entries = [] := by
      rw [filterKey_eq_nil_iff]
      intro e he hke
      exact hmem ((newKeys_mem_iff entrySess entries [] sid).mpr
        ⟨List.not_mem_nil sid, e, he, hke⟩)
    rw [hnil]
    rfl

theorem interleave_filterKey {α : Type} (key : α → Option String) (sid : String) :
    ∀ {A B L : List α}, Interleave A B L → (∀ e ∈ B, key e ≠ some sid) →
      filterKey key sid L = filterKey key sid A := by
  intro A B L h
  induction h with
  | nil => intro _; rfl
  | @left a l r t h ih =>
    intro hB
    by_cases ha : key a = some sid
    · rw [filterKey_cons_of_eq _ ha, filterKey_cons_of_eq _ ha, ih hB]
    · rw [filterKey_cons_of_ne _ ha, filterKey_cons_of_ne _ ha, ih hB]
  | @right a l r t h ih =>
    intro hB
    rw [filterKey_cons_of_ne _ (hB a (List.mem_cons_self _ _))]
    exact ih (fun e he => hB e (List.mem_cons_of_mem _ he))

/-! ### Durations: nonnegativity, conservation, span bound -/

theorem secondsOf_eq_div (g : Int) : secondsOf g = (g : ℚ) / 1000 := by
  rw [secondsOf, Rat.divInt_eq_div]
  norm_num

theorem secondsOf_nonneg {g : Int} (h : 0 ≤ g) : 0 ≤ secondsOf g := by
  rw [secondsOf_eq_div]
  positivity

theorem secondsOf_mono {a b : Int} (h : a ≤ b) : secondsOf a ≤ secondsOf b := by
  rw [secondsOf_eq_div, secondsOf_eq_div]
  have : (a : ℚ) ≤ (b : ℚ) := by exact_mod_cast h
  exact div_le_div_of_nonneg_right this (by norm_num)

theorem secondsOf_add (a b : Int) : secondsOf (a + b) = secondsOf a + secondsOf b := by
  rw [secondsOf_eq_div, secondsOf_eq_div, secondsOf_eq_div]
  push_cast
  rw [add_div]

theorem sessionSlices_seconds_nonneg (sid : String) (br : Int) :
    ∀ (evs : List Entry), ∀ s ∈ sessionSlices sid br evs, 0 ≤ s.seconds := by
  intro evs
  induction evs with
  | nil => intro s hs; simp [sessionSlices] at hs
  | cons x xs ih =>
    cases xs with
    | nil =>
      intro s hs
      by_cases hx : x.event = "UserPromptSubmit" <;> simp [sessionSlices, hx] at hs
      subst hs; simp [promptSliceOf]
    | cons y ys =>
      intro s hs
      rw [sessionSlices, List.mem_append] at hs
      rcases hs with hs | hs
      · unfold pairSlice at hs
        by_cases hgap : 0 < y.ts - x.ts ∧ y.ts - x.ts < br
        · simp only [if_pos hgap, Option.toList_some, List.mem_singleton] at hs
          subst hs
          exact secondsOf_nonneg (le_of_lt hgap.1)
        · by_cases hx : x.event = "UserPromptSubmit" <;>
            simp only [if_neg hgap, hx, if_true, if_false,
              Option.toList_some, Option.toList_none, List.mem_singleton,
              List.not_mem_nil] at hs
          subst hs; simp [promptSliceOf]
      · exact ih s hs

theorem buildSlices_seconds_nonneg (entries : List Entry) (br : Int) :
    ∀ s ∈ buildSlices entries br, 0 ≤ s.seconds := by
  intro s hs
  rw [buildSlices_eq] at hs
  rcases List.mem_flatMap.mp hs with ⟨k, -, hsk⟩
  exact sessionSlices_seconds_nonneg k br _ s hsk

theorem sessionSlices_sum (sid : String) (br : Int) :
    ∀ (evs : List Entry),
      ((sessionSlices sid br evs).map Slice.seconds).sum = gapSecondsSum br evs := by
  intro evs
  induction evs with
  | nil => simp [sessionSlices, gapSecondsSum]
  | cons x xs ih =>
    cases xs with
    | nil =>
      by_cases hx : x.event = "UserPromptSubmit" <;>
        simp [sessionSlices, gapSecondsSum, hx, promptSliceOf]
    | cons y ys =>
      rw [sessionSlices, List.map_append, List.sum_append, ih]
      rw [gapSecondsSum]
      congr 1
      simp only [pairSlice]
      by_cases hgap : 0 < y.ts - x.ts ∧ y.ts - x.ts < br
      · rw [if_pos hgap, if_pos hgap]
        simp [activeSliceOf]
      · rw [if_neg hgap, if_neg hgap]
        by_cases hx : x.event = "UserPromptSubmit"
        · rw [if_pos hx]
          simp [promptSliceOf]
        · rw [if_neg hx]
          simp

theorem gapSecondsSum_le_span (br : Int) :
    ∀ (evs : List Entry), List.Chain' (fun a b : Entry => a.ts ≤ b.ts) evs →
      ∀ a z, evs.head? = some a → evs.getLast? = some z →
        gapSecondsSum br evs ≤ secondsOf (z.ts - a.ts) := by
  intro evs
  induction evs with
  | nil => intro _ a z ha; cases ha
  | cons x xs ih =>
    cases xs with
    | nil =>
      intro _ a z ha hz
      cases ha; cases hz
      simp only [gapSecondsSum]
      refine secondsOf_nonneg ?_
      have hx1 : ([x].getLast (by simp) : Entry) = x := rfl
      simp [hx1]
    | cons y ys =>
      intro hch a z ha hz
      cases ha
      have hch2 := List.chain'_cons.mp hch
      have hz2 : (y :: ys).getLast? = some z := by
        rw [List.getLast?_cons_cons] at hz
        exact hz
      have hIH := ih hch2.2 y z rfl hz2
      rw [gapSecondsSum]
      have hxy : x.ts ≤ y.ts := hch2.1
      have hgaple : (if 0 < y.ts - x.ts ∧ y.ts - x.ts < br
          then secondsOf (y.ts - x.ts) else 0) ≤ secondsOf (y.ts - x.ts) := by
        split
        · exact le_refl _
        · exact secondsOf_nonneg (by omega)
      calc (if 0 < y.ts - x.ts ∧ y.ts - x.ts < br then secondsOf (y.ts - x.ts) else 0)
            + gapSecondsSum br (y :: ys)
          ≤ secondsOf (y.ts - x.ts) + secondsOf (z.ts - y.ts) := add_le_add hgaple hIH
        _ = secondsOf (z.ts - x.ts) := by
            rw [← secondsOf_add]
            congr 1
            omega

theorem sortTs_chain (l : List Entry) :
    List.Chain' (fun a b : Entry => a.ts ≤ b.ts) (sortTs l) := by
  haveI hTot : IsTotal Entry (fun a b : Entry => a.ts ≤ b.ts) :=
    ⟨fun a b => Int.le_total a.ts b.ts⟩
  haveI hTr : IsTrans Entry (fun a b : Entry => a.ts ≤ b.ts) :=
    ⟨fun _ _ _ hab hbc => le_trans hab hbc⟩
  exact (List.sorted_insertionSort _ l).chain'

theorem sessionSlices_getLast (sid : String) (br : Int) :
    ∀ (evs : List Entry) (e : Entry), evs.getLast? = some e →
      e.event = "UserPromptSubmit" →
      (sessionSlices sid br evs).getLast? = some (promptSliceOf sid e) := by
  intro evs
  induction evs with
  | nil => intro e he _; cases he
  | cons x xs ih =>
    cases xs with
    | nil =>
      intro e he hp
      have hex : e = x := by
        have := he
        simp at this
        exact this.symm
      subst hex
      simp [sessionSlices, hp]
    | cons y ys =>
      intro e he hp
      have he2 : (y :: ys).getLast? = some e := by
        rw [List.getLast?_cons_cons] at he
        exact he
      have htail := ih e he2 hp
      rw [sessionSlices, List.getLast?_append, htail]
      rfl

theorem buildSlices_filterKey (entries : List Entry) (br : Int) (sid : String) :
    buildSlices (filterKey entrySess sid entries) br =
      sessionSlices sid br (sortTs (filterKey entrySess sid entries)) := by
  rw [buildSlices_eq]
  cases hl : filterKey entrySess sid entries with
  | nil => simp [newKeys, sortTs, List.insertionSort, sessionSlices]
  | cons x xs =>
    have hconst : ∀ e ∈ filterKey entrySess sid entries, entrySess e = some sid :=
      fun e he => (mem_filterKey.mp he).2
    have hx : entrySess x = some sid := hconst x (hl ▸ List.mem_cons_self _ _)
    have hxs : ∀ e ∈ xs, ∀ k, entrySess e = some k → k ∈ ([] ++ [sid] : List String) := by
      intro e he k hke
      have : entrySess e = some sid := hconst e (hl ▸ List.mem_cons_of_mem _ he)
      rw [this] at hke
      simp [Option.some.inj hke]
    have hsingle : newKeys entrySess [] (x :: xs) = [sid] := by
      simp only [newKeys, hx, List.not_mem_nil, if_false, if_neg]
      rw [newKeys_nil_of_mem entrySess xs ([] ++ [sid]) hxs]
    rw [hsingle]
    simp only [List.flatMap_cons, List.flatMap_nil, List.append_nil]
    rw [← hl, filterKey_idem, hl]

/-! ### Association-list map model: lookup laws -/

theorem lookupKey_eq_none_iff {κ β : Type} [DecidableEq κ] (l : List (κ × β)) (k : κ) :
    lookupKey l k = none ↔ k ∉ l.map Prod.fst := by
  induction l with
  | nil => simp [lookupKey]
  | cons p rest ih =>
    by_cases h : p.1 = k
    · simp [lookupKey, h]
    · rw [lookupKey, if_neg h, ih]
      simp only [List.map_cons, List.mem_cons]
      constructor
      · intro hn hc
        rcases hc with hc | hc
        · exact h hc.symm
        · exact hn hc
      · intro hn hc
        exact hn (Or.inr hc)

theorem lookupKey_isSome_of_mem {κ β : Type} [DecidableEq κ] {l : List (κ × β)} {k : κ}
    (h : k ∈ l.map Prod.fst) : (lookupKey l k).isSome := by
  cases ho : lookupKey l k with
  | none => exact absurd h ((lookupKey_eq_none_iff l k).mp ho)
  | some v => rfl

theorem lookupKey_append {κ β : Type} [DecidableEq κ] (l1 l2 : List (κ × β)) (k : κ) :
    lookupKey (l1 ++ l2) k = (lookupKey l1 k).or (lookupKey l2 k) := by
  induction l1 with
  | nil => simp [lookupKey]
  | cons p rest ih =>
    by_cases h : p.1 = k
    · simp [lookupKey, h]
    · rw [List.cons_append, lookupKey, if_neg h, lookupKey, if_neg h, ih]

theorem lookupKey_mapUpd {κ β : Type} [DecidableEq κ] (m : List (κ × β)) (k : κ) (f : β → β)
    (j : κ) :
    lookupKey (mapUpd m k f) j =
      if j = k then (lookupKey m k).map f else lookupKey m j := by
  induction m with
  | nil => by_cases h : j = k <;> simp [mapUpd, lookupKey, h]
  | cons p rest ih =>
    simp only [mapUpd, List.map_cons] at ih ⊢
    by_cases hpk : p.1 = k
    · rw [if_pos hpk]
      by_cases hjk : j = k
      · subst hjk
        rw [if_pos rfl]
        rw [lookupKey, lookupKey, if_pos hpk, if_pos hpk]
        rfl
      · rw [if_neg hjk]
        have hpj : ¬p.1 = j := fun hc => hjk (by rw [← hc, hpk])
        rw [lookupKey, lookupKey, if_neg hpj, if_neg hpj, ih, if_neg hjk]
    · rw [if_neg hpk]
      by_cases hjk : j = k
      · subst hjk
        rw [if_pos rfl]
        rw [lookupKey, lookupKey, if_neg hpk, if_neg hpk, ih, if_pos rfl]
      · rw [if_neg hjk]
        by_cases hpj : p.1 = j
        · rw [lookupKey, lookupKey, if_pos hpj, if_pos hpj]
        · rw [lookupKey, lookupKey, if_neg hpj, if_neg hpj, ih, if_neg hjk]

theorem lookupKey_ensureKey {κ β : Type} [DecidableEq κ] (m : List (κ × β)) (k : κ) (v : β)
    (j : κ) :
    lookupKey (ensureKey m k v) j =
      if j = k then some ((lookupKey m k).getD v) else lookupKey m j := by
  unfold ensureKey
  by_cases hmem : k ∈ m.map Prod.fst
  · rw [if_pos hmem]
    by_cases hjk : j = k
    · subst hjk
      rw [if_pos rfl]
      cases ho : lookupKey m j with
      | none => exact absurd hmem ((lookupKey_eq_none_iff m j).mp ho)
      | some g => rfl
    · rw [if_neg hjk]
  · rw [if_neg hmem, lookupKey_append]
    by_cases hjk : j = k
    · subst hjk
      rw [if_pos rfl, (lookupKey_eq_none_iff m j).mpr hmem]
      simp [lookupKey]
    · rw [if_neg hjk]
      have : lookupKey [(k, v)] j = none := by
        rw [lookupKey, if_neg (fun hc : k = j => hjk hc.symm)]
        rfl
      rw [this]
      cases lookupKey m j <;> rfl

theorem lookupKey_map_value {κ β γ : Type} [DecidableEq κ] (l : List (κ × β)) (f : β → γ)
    (k : κ) :
    lookupKey (l.map (fun p => (p.1, f p.2))) k = (lookupKey l k).map f := by
  induction l with
  | nil => simp [lookupKey]
  | cons p rest ih =>
    by_cases h : p.1 = k
    · simp [lookupKey, h]
    · simp only [List.map_cons, lookupKey, if_neg h, ih]

/-! ### Aggregation: fold characterization -/

theorem mem_setInsert (l : List String) (x y : String) :
    y ∈ setInsert l x ↔ y ∈ l ∨ y = x := by
  unfold setInsert
  by_cases h : x ∈ l
  · rw [if_pos h]
    constructor
    · exact Or.inl
    · rintro (hy | hy)
      · exact hy
      · exact hy ▸ h
  · rw [if_neg h]
    simp

theorem setInsert_nodup {l : List String} (h : l.Nodup) (x : String) :
    (setInsert l x).Nodup := by
  unfold setInsert
  by_cases hx : x ∈ l
  · rw [if_pos hx]; exact h
  · rw [if_neg hx]
    refine List.Nodup.append h (by simp) ?_
    intro y hy hz
    simp only [List.mem_singleton] at hz
    subst hz
    exact hx hy

theorem mem_insFold : ∀ (xs : List String) (l : List String) (y : String),
    y ∈ xs.foldl setInsert l ↔ y ∈ l ∨ y ∈ xs := by
  intro xs
  induction xs with
  | nil => intro l y; simp
  | cons x rest ih =>
    intro l y
    rw [List.foldl_cons, ih, mem_setInsert]
    constructor
    · rintro ((hy | hy) | hy)
      · exact Or.inl hy
      · exact Or.inr (hy ▸ List.mem_cons_self _ _)
      · exact Or.inr (List.mem_cons_of_mem _ hy)
    · rintro (hy | hy)
      · exact Or.inl (Or.inl hy)
      · rcases List.mem_cons.mp hy with hy | hy
        · exact Or.inl (Or.inr hy)
        · exact Or.inr hy

theorem insFold_nodup : ∀ (xs : List String) {l : List String}, l.Nodup →
    (xs.foldl setInsert l).Nodup := by
  intro xs
  induction xs with
  | nil => intro l h; exact h
  | cons x rest ih => intro l h; exact ih (setInsert_nodup h x)

theorem insFold_length (xs : List String) :
    (xs.foldl setInsert []).length = xs.toFinset.card := by
  have hnd : (xs.foldl setInsert []).Nodup := insFold_nodup xs List.nodup_nil
  have hset : (xs.foldl setInsert []).toFinset = xs.toFinset := by
    ext y
    simp only [List.mem_toFinset]
    rw [mem_insFold]
    simp
  rw [← List.toFinset_card_of_nodup hnd, hset]

theorem foldl_addSlice_prompts : ∀ (m : List Slice) (g : AggAcc),
    (m.foldl addSlice g).prompts = g.prompts + (m.filter Slice.isPrompt).length := by
  intro m
  induction m with
  | nil => intro g; simp
  | cons s rest ih =>
    intro g
    rw [List.foldl_cons, ih]
    by_cases hp : s.isPrompt
    · simp [addSlice, List.filter_cons, hp]
      omega
    · simp [addSlice, List.filter_cons, hp]

theorem foldl_addSlice_active : ∀ (m : List Slice) (g : AggAcc),
    (m.foldl addSlice g).active = g.active + (m.map Slice.seconds).sum := by
  intro m
  induction m with
  | nil => intro g; simp
  | cons s rest ih =>
    intro g
    rw [List.foldl_cons, ih]
    simp [addSlice]
    ring

theorem foldl_addSlice_sessions : ∀ (m : List Slice) (g : AggAcc),
    (m.foldl addSlice g).sessions = (m.map Slice.session).foldl setInsert g.sessions := by
  intro m
  induction m with
  | nil => intro g; rfl
  | cons s rest ih =>
    intro g
    rw [List.foldl_cons, ih]
    rfl

theorem aggLoop_lookup (kf : Slice → Option String) :
    ∀ (slices : List Slice) (acc : List (String × AggAcc)) (j : String),
      lookupKey (aggLoop kf acc slices) j =
        slices.foldl
          (fun go s =>
            if keyOf kf s = some j then
              some (addSlice (go.getD { sessions := [], prompts := 0, active := 0 }) s)
            else go)
          (lookupKey acc j) := by
  intro slices
  induction slices with
  | nil => intro acc j; rfl
  | cons s rest ih =>
    intro acc j
    rw [aggLoop, ih, List.foldl_cons]
    congr 1
    unfold aggUpd
    cases hk : keyOf kf s with
    | none => simp [hk]
    | some k =>
      rw [lookupKey_mapUpd]
      by_cases hjk : j = k
      · subst hjk
        rw [if_pos rfl, lookupKey_ensureKey, if_pos rfl, if_pos rfl]
        rfl
      · rw [if_neg hjk, lookupKey_ensureKey, if_neg hjk,
          if_neg (show ¬(some k = some j) from fun hc => hjk (Option.some.inj hc).symm)]

theorem foldl_go_some (kf : Slice → Option String) (j : String) :
    ∀ (slices : List Slice) (g : AggAcc),
      slices.foldl
          (fun go s =>
            if keyOf kf s = some j then
              some (addSlice (go.getD { sessions := [], prompts := 0, active := 0 }) s)
            else go)
          (some g) =
        some ((slices.filter (fun s => decide (keyOf kf s = some j))).foldl addSlice g) := by
  intro slices
  induction slices with
  | nil => intro g; rfl
  | cons s rest ih =>
    intro g
    rw [List.foldl_cons]
    by_cases hs : keyOf kf s = some j
    · rw [if_pos hs]
      simp only [Option.getD_some]
      rw [ih (addSlice g s)]
      have hfil : (s :: rest).filter (fun s => decide (keyOf kf s = some j)) =
          s :: rest.filter (fun s => decide (keyOf kf s = some j)) := by
        simp [List.filter_cons, hs]
      rw [hfil, List.foldl_cons]
    · rw [if_neg hs, ih g]
      have hfil : (s :: rest).filter (fun s => decide (keyOf kf s = some j)) =
          rest.filter (fun s => decide (keyOf kf s = some j)) := by
        simp [List.filter_cons, hs]
      rw [hfil]

theorem foldl_go_none (kf : Slice → Option String) (j : String) :
    ∀ (slices : List Slice),
      slices.foldl
          (fun go s =>
            if keyOf kf s = some j then
              some (addSlice (go.getD { sessions := [], prompts := 0, active := 0 }) s)
            else go)
          none =
        (if slices.filter (fun s => decide (keyOf kf s = some j)) = [] then none
         else some ((slices.filter (fun s => decide (keyOf kf s = some j))).foldl addSlice
           { sessions := [], prompts := 0, active := 0 })) := by
  intro slices
  induction slices with
  | nil => rfl
  | cons s rest ih =>
    rw [List.foldl_cons]
    by_cases hs : keyOf kf s = some j
    · rw [if_pos hs]
      simp only [Option.getD_none]
      rw [foldl_go_some]
      have hfil : (s :: rest).filter (fun s => decide (keyOf kf s = some j)) =
          s :: rest.filter (fun s => decide (keyOf kf s = some j)) := by
        simp [List.filter_cons, hs]
      rw [hfil, if_neg (by simp), List.foldl_cons]
    · rw [if_neg hs, ih]
      have hfil : (s :: rest).filter (fun s => decide (keyOf kf s = some j)) =
          rest.filter (fun s => decide (keyOf kf s = some j)) := by
        simp [List.filter_cons, hs]
      rw [hfil]

/-! ### Rollup views: sum invariants -/

theorem mapUpd_map_fst {κ β : Type} [DecidableEq κ] (m : List (κ × β)) (k : κ) (f : β → β) :
    (mapUpd m k f).map Prod.fst = m.map Prod.fst := by
  induction m with
  | nil => rfl
  | cons p rest ih =>
    by_cases h : p.1 = k <;> simp [mapUpd, h] <;>
      simpa [mapUpd] using ih

theorem ensureKey_map_fst_of_mem {κ β : Type} [DecidableEq κ] {m : List (κ × β)} {k : κ}
    (v : β) (h : k ∈ m.map Prod.fst) : (ensureKey m k v).map Prod.fst = m.map Prod.fst := by
  simp [ensureKey, h]

theorem ensureKey_map_fst_of_not_mem {κ β : Type} [DecidableEq κ] {m : List (κ × β)} {k : κ}
    (v : β) (h : k ∉ m.map Prod.fst) :
    (ensureKey m k v).map Prod.fst = m.map Prod.fst ++ [k] := by
  simp [ensureKey, h]

theorem ensureKey_nodup {κ β : Type} [DecidableEq κ] {m : List (κ × β)} {k : κ} (v : β)
    (h : (m.map Prod.fst).Nodup) : ((ensureKey m k v).map Prod.fst).Nodup := by
  by_cases hk : k ∈ m.map Prod.fst
  · rw [ensureKey_map_fst_of_mem v hk]; exact h
  · rw [ensureKey_map_fst_of_not_mem v hk]
    refine List.Nodup.append h (by simp) ?_
    intro y hy hz
    simp only [List.mem_singleton] at hz
    subst hz
    exact hk hy

theorem mem_key_ensureKey {κ β : Type} [DecidableEq κ] (m : List (κ × β)) (k : κ) (v : β) :
    k ∈ (ensureKey m k v).map Prod.fst := by
  by_cases hk : k ∈ m.map Prod.fst
  · rw [ensureKey_map_fst_of_mem v hk]; exact hk
  · rw [ensureKey_map_fst_of_not_mem v hk]
    exact List.mem_append_right _ (List.mem_singleton.mpr rfl)

theorem mem_ensureKey {κ β : Type} [DecidableEq κ] {m : List (κ × β)} {k : κ} {v : β} {q : κ × β}
    (h : q ∈ ensureKey m k v) : q ∈ m ∨ q = (k, v) := by
  unfold ensureKey at h
  by_cases hk : k ∈ m.map Prod.fst
  · rw [if_pos hk] at h; exact Or.inl h
  · rw [if_neg hk] at h
    rcases List.mem_append.mp h with h | h
    · exact Or.inl h
    · exact Or.inr (List.mem_singleton.mp h)

theorem mem_mapUpd {κ β : Type} [DecidableEq κ] {m : List (κ × β)} {k : κ} {f : β → β}
    {q : κ × β} (h : q ∈ mapUpd m k f) :
    ∃ p ∈ m, q = (if p.1 = k then (p.1, f p.2) else p) := by
  unfold mapUpd at h
  rcases List.mem_map.mp h with ⟨p, hp, hq⟩
  exact ⟨p, hp, hq.symm⟩

theorem sum_map_ensureKey {β M : Type} [AddCommMonoid M] (m : List (String × β)) (k : String)
    (v : β) (val : β → M) (hv : val v = 0) :
    ((ensureKey m k v).map (fun p => val p.2)).sum = (m.map (fun p => val p.2)).sum := by
  unfold ensureKey
  by_cases hk : k ∈ m.map Prod.fst
  · rw [if_pos hk]
  · rw [if_neg hk]
    simp [hv]

theorem sum_map_mapUpd {β M : Type} [AddCommMonoid M] (m : List (String × β)) (k : String)
    (f : β → β) (val : β → M) (δ : M) (hf : ∀ b, val (f b) = val b + δ)
    (hnd : (m.map Prod.fst).Nodup) (hk : k ∈ m.map Prod.fst) :
    ((mapUpd m k f).map (fun p => val p.2)).sum = (m.map (fun p => val p.2)).sum + δ := by
  induction m with
  | nil => simp at hk
  | cons p rest ih =>
    simp only [List.map_cons, List.nodup_cons] at hnd
    by_cases hp : p.1 = k
    · have hrest : List.map (fun q : String × β => if q.1 = k then (q.1, f q.2) else q) rest =
          rest := by
        have h1 : List.map (fun q : String × β => if q.1 = k then (q.1, f q.2) else q) rest =
            List.map id rest := by
          apply List.map_congr_left
          intro q hq
          rw [if_neg]
          · rfl
          · intro hc
            exact hnd.1 (hp ▸ hc ▸ List.mem_map_of_mem Prod.fst hq)
        rw [h1, List.map_id]
      simp only [mapUpd, List.map_cons, if_pos hp, hrest]
      simp only [List.map_cons, List.sum_cons, hf]
      rw [add_assoc, add_comm δ _, ← add_assoc]
    · have hkrest : k ∈ rest.map Prod.fst := by
        rw [List.map_cons] at hk
        rcases List.mem_cons.mp hk with hc | hc
        · exact absurd hc.symm hp
        · exact hc
      simp only [mapUpd, List.map_cons, if_neg hp, List.sum_cons]
      have := ih hnd.2 hkrest
      simp only [mapUpd] at this
      rw [this, add_assoc]

theorem tpAdd_preserve (pg : TsProj) (s : Slice)
    (h1 : (pg.tickets.map Prod.fst).Nodup)
    (h2 : tsTicketActiveSum pg.tickets = pg.active)
    (h3 : tsTicketPromptSum pg.tickets = pg.prompts) :
    ((tpAdd pg s).tickets.map Prod.fst).Nodup ∧
      tsTicketActiveSum (tpAdd pg s).tickets = (tpAdd pg s).active ∧
      tsTicketPromptSum (tpAdd pg s).tickets = (tpAdd pg s).prompts := by
  have ht : (tpAdd pg s).tickets =
      mapUpd (ensureKey pg.tickets (fallback s.ticket "(untracked)")
          { sessions := [], prompts := 0, active := 0 })
        (fallback s.ticket "(untracked)") (fun tg => ttAdd tg s) := rfl
  have ha : (tpAdd pg s).active = pg.active + s.seconds := rfl
  have hp : (tpAdd pg s).prompts = pg.prompts + (if s.isPrompt then 1 else 0) := rfl
  refine ⟨?_, ?_, ?_⟩
  · rw [ht, mapUpd_map_fst]
    exact ensureKey_nodup _ h1
  · rw [ht, ha, tsTicketActiveSum]
    rw [sum_map_mapUpd _ _ _ (fun tg => tg.active) s.seconds (fun b => rfl)
      (ensureKey_nodup _ h1) (mem_key_ensureKey _ _ _)]
    rw [sum_map_ensureKey _ _ _ (fun tg : TsTicket => tg.active) rfl]
    rw [← tsTicketActiveSum, h2]
  · rw [ht, hp, tsTicketPromptSum]
    rw [sum_map_mapUpd _ _ _ (fun tg => tg.prompts) (if s.isPrompt then 1 else 0)
      (fun b => rfl) (ensureKey_nodup _ h1) (mem_key_ensureKey _ _ _)]
    rw [sum_map_ensureKey _ _ _ (fun tg : TsTicket => tg.prompts) rfl]
    rw [← tsTicketPromptSum, h3]

theorem tsLoop_inv :
    ∀ (slices : List Slice) (acc : List (String × TsProj)),
      (∀ q ∈ acc, (q.2.tickets.map Prod.fst).Nodup ∧
        tsTicketActiveSum q.2.tickets = q.2.active ∧
        tsTicketPromptSum q.2.tickets = q.2.prompts) →
      ∀ q ∈ tsLoop acc slices, (q.2.tickets.map Prod.fst).Nodup ∧
        tsTicketActiveSum q.2.tickets = q.2.active ∧
        tsTicketPromptSum q.2.tickets = q.2.prompts := by
  intro slices
  induction slices with
  | nil => intro acc h; exact h
  | cons s rest ih =>
    intro acc h
    refine ih (tsUpd acc s) ?_
    intro q hq
    unfold tsUpd at hq
    rcases mem_mapUpd hq with ⟨p, hp, hq2⟩
    rcases mem_ensureKey hp with hp2 | hp2
    · have hprop := h p hp2
      by_cases hpk : p.1 = fallback s.project "(unknown)"
      · rw [hq2, if_pos hpk]
        exact tpAdd_preserve p.2 s hprop.1 hprop.2.1 hprop.2.2
      · rw [hq2, if_neg hpk]
        exact hprop
    · subst hp2
      rw [hq2, if_pos rfl]
      refine tpAdd_preserve _ s ?_ ?_ ?_ <;> simp [tsTicketActiveSum, tsTicketPromptSum]

theorem buildTimesheet_inv (slices : List Slice) :
    ∀ q ∈ buildTimesheet slices, (q.2.tickets.map Prod.fst).Nodup ∧
      tsTicketActiveSum q.2.tickets = q.2.active ∧
      tsTicketPromptSum q.2.tickets = q.2.prompts := by
  exact tsLoop_inv slices [] (by intro q hq; simp at hq)

theorem pgAdd_preserve (pg : ProjGroup) (tkt : Option String) (s : Slice)
    (hs : 0 ≤ s.seconds)
    (h1 : (pg.tickets.map Prod.fst).Nodup)
    (h2 : ticketActiveSum pg.tickets ≤ pg.active)
    (h3 : ticketPromptSum pg.tickets ≤ pg.prompts) :
    ((pgAdd pg tkt s).tickets.map Prod.fst).Nodup ∧
      ticketActiveSum (pgAdd pg tkt s).tickets ≤ (pgAdd pg tkt s).active ∧
      ticketPromptSum (pgAdd pg tkt s).tickets ≤ (pgAdd pg tkt s).prompts := by
  have ha : (pgAdd pg tkt s).active = pg.active + s.seconds := by
    cases tkt <;> rfl
  have hp : (pgAdd pg tkt s).prompts = pg.prompts + (if s.isPrompt then 1 else 0) := by
    cases tkt <;> rfl
  cases tkt with
  | none =>
    have ht : (pgAdd pg none s).tickets = pg.tickets := rfl
    refine ⟨by rw [ht]; exact h1, ?_, ?_⟩
    · rw [ht, ha]
      exact le_trans h2 (le_add_of_nonneg_right hs)
    · rw [ht, hp]
      exact le_trans h3 (Nat.le_add_right _ _)
  | some t =>
    have ht : (pgAdd pg (some t) s).tickets =
        mapUpd (ensureKey pg.tickets t { prompts := 0, active := 0 }) t
          (fun tg => tgAdd tg s) := rfl
    refine ⟨?_, ?_, ?_⟩
    · rw [ht, mapUpd_map_fst]
      exact ensureKey_nodup _ h1
    · rw [ht, ha, ticketActiveSum]
      rw [sum_map_mapUpd _ _ _ (fun tg => tg.active) s.seconds (fun b => rfl)
        (ensureKey_nodup _ h1) (mem_key_ensureKey _ _ _)]
      rw [sum_map_ensureKey _ _ _ (fun tg : TicketGroup => tg.active) rfl]
      exact add_le_add_right h2 _
    · rw [ht, hp, ticketPromptSum]
      rw [sum_map_mapUpd _ _ _ (fun tg => tg.prompts) (if s.isPrompt then 1 else 0)
        (fun b => rfl) (ensureKey_nodup _ h1) (mem_key_ensureKey _ _ _)]
      rw [sum_map_ensureKey _ _ _ (fun tg : TicketGroup => tg.prompts) rfl]
      exact Nat.add_le_add_right h3 _

theorem bdptLoop_inv :
    ∀ (slices : List Slice) (acc : List (Int × List (String × ProjGroup))),
      (∀ s ∈ slices, 0 ≤ s.seconds) →
      (∀ d ∈ acc, ∀ q ∈ d.2, (q.2.tickets.map Prod.fst).Nodup ∧
        ticketActiveSum q.2.tickets ≤ q.2.active ∧
        ticketPromptSum q.2.tickets ≤ q.2.prompts) →
      ∀ d ∈ bdptLoop acc slices, ∀ q ∈ d.2, (q.2.tickets.map Prod.fst).Nodup ∧
        ticketActiveSum q.2.tickets ≤ q.2.active ∧
        ticketPromptSum q.2.tickets ≤ q.2.prompts := by
  intro slices
  induction slices with
  | nil => intro acc _ h; exact h
  | cons s rest ih =>
    intro acc hss h
    refine ih (bdptUpd acc s) (fun x hx => hss x (List.mem_cons_of_mem _ hx)) ?_
    have hs : 0 ≤ s.seconds := hss s (List.mem_cons_self _ _)
    intro d hd q hq
    unfold bdptUpd at hd
    rcases mem_mapUpd hd with ⟨d0, hd0, hdeq⟩
    have hinner : ∀ dm : List (String × ProjGroup),
        (∀ q ∈ dm, (q.2.tickets.map Prod.fst).Nodup ∧
          ticketActiveSum q.2.tickets ≤ q.2.active ∧
          ticketPromptSum q.2.tickets ≤ q.2.prompts) →
        ∀ q ∈ mapUpd (ensureKey dm (fallback s.project "(unknown)")
            { date := s.date, project := fallback s.project "(unknown)", prompts := 0,
              active := 0, tickets := [] }) (fallback s.project "(unknown)")
            (fun pg => pgAdd pg (truthy s.ticket) s),
          (q.2.tickets.map Prod.fst).Nodup ∧
            ticketActiveSum q.2.tickets ≤ q.2.active ∧
            ticketPromptSum q.2.tickets ≤ q.2.prompts := by
      intro dm hdm q2 hq2
      rcases mem_mapUpd hq2 with ⟨p, hp, hq3⟩
      rcases mem_ensureKey hp with hp2 | hp2
      · have hprop := hdm p hp2
        by_cases hpk : p.1 = fallback s.project "(unknown)"
        · rw [hq3, if_pos hpk]
          exact pgAdd_preserve p.2 (truthy s.ticket) s hs hprop.1 hprop.2.1 hprop.2.2
        · rw [hq3, if_neg hpk]
          exact hprop
      · subst hp2
        rw [hq3, if_pos rfl]
        refine pgAdd_preserve _ (truthy s.ticket) s hs ?_ ?_ ?_ <;>
          simp [ticketActiveSum, ticketPromptSum]
    rcases mem_ensureKey hd0 with hd2 | hd2
    · by_cases hdk : d0.1 = s.date
      · rw [hdeq, if_pos hdk] at hq
        exact hinner d0.2 (h d0 hd2) q hq
      · rw [hdeq, if_neg hdk] at hq
        exact h d0 hd2 q hq
    · subst hd2
      rw [hdeq, if_pos rfl] at hq
      exact hinner [] (by intro x hx; simp at hx) q hq

theorem buildDayProjectTicket_inv (slices : List Slice) (hss : ∀ s ∈ slices, 0 ≤ s.seconds) :
    ∀ d ∈ buildDayProjectTicket slices, ∀ q ∈ d.2,
      (q.2.tickets.map Prod.fst).Nodup ∧
        ticketActiveSum q.2.tickets ≤ q.2.active ∧
        ticketPromptSum q.2.tickets ≤ q.2.prompts := by
  exact bdptLoop_inv slices [] hss (by intro d hd; simp at hd)

/-! ### Invalid timestamps and the event store reader -/

theorem pairSliceO_invalid (sid : String) (br : Int) (curr next : EntryO) (s : Slice)
    (hinv : curr.ts = none ∨ next.ts = none)
    (hok : pairSliceO sid br curr next = .ok (some s)) :
    s.seconds = 0 ∧ s.isPrompt = true := by
  unfold pairSliceO at hok
  cases hc : curr.ts with
  | none =>
    rw [hc] at hok
    by_cases hp : curr.event = "UserPromptSubmit"
    · rw [if_pos hp] at hok
      unfold promptSliceOfO at hok
      rw [hc] at hok
      cases hok
    · rw [if_neg hp] at hok
      cases hok
  | some t0 =>
    cases hn : next.ts with
    | none =>
      rw [hc, hn] at hok
      by_cases hp : curr.event = "UserPromptSubmit"
      · rw [if_pos hp] at hok
        unfold promptSliceOfO at hok
        rw [hc] at hok
        simp only [Except.map] at hok
        cases hok
        constructor <;> rfl
      · rw [if_neg hp] at hok
        cases hok
    | some t1 =>
      rw [hc] at hinv
      rw [hn] at hinv
      rcases hinv with h | h <;> cases h

theorem buildSlicesO_singleton_invalid_prompt (br : Int) (e : EntryO) (sid : String)
    (h1 : e.session = some sid) (h2 : sid ≠ "") (h3 : e.ts = none)
    (h4 : e.event = "UserPromptSubmit") :
    buildSlicesO [e] br = .error () := by
  have hsess : entrySessO e = some sid := by simp [entrySessO, h1, h2]
  unfold buildSlicesO
  have hgf : groupFold entrySessO [] [e] = [(sid, [e])] := by
    simp [groupFold, groupUpd, hsess]
  rw [hgf]
  have hwalk : sessionSlicesO sid br (sortTsO [e]) = .error () := by
    have hsort : sortTsO [e] = [e] := rfl
    rw [hsort]
    simp [sessionSlicesO, h4, promptSliceOfO, h3, Except.map]
  unfold concatSlicesO
  rw [hwalk]

theorem parseEntries_ok {α : Type} (parse : String → Option α) :
    ∀ (contents : List (List String)),
      parseEntries parse (contents.map some) = .ok (contents.flatMap (parseLines parse)) := by
  intro contents
  induction contents with
  | nil => rfl
  | cons c rest ih =>
    rw [List.map_cons, parseEntries, ih, List.flatMap_cons]

theorem parseEntries_error {α : Type} (parse : String → Option α) :
    ∀ (files : List (Option (List String))), none ∈ files →
      parseEntries parse files = .error () := by
  intro files
  induction files with
  | nil => intro h; simp at h
  | cons f rest ih =>
    intro h
    cases f with
    | none => rfl
    | some lines =>
      have hr : none ∈ rest := by
        rcases List.mem_cons.mp h with hc | hc
        · cases hc
        · exact hc
      rw [parseEntries, ih hr]

theorem parseLines_eq_filterMap {α : Type} (parse : String → Option α) :
    ∀ (lines : List String),
      parseLines parse lines =
        lines.filterMap (fun line =>
          if line.toList.all Char.isWhitespace then none else parse line) := by
  intro lines
  induction lines with
  | nil => rfl
  | cons line rest ih =>
    rw [parseLines, List.filterMap_cons]
    by_cases hb : line.toList.all Char.isWhitespace
    · rw [if_pos hb]
      simp only [hb, if_true]
      exact ih
    · rw [if_neg hb]
      simp only [hb, if_false]
      cases parse line with
      | none => simpa using ih
      | some v => simp [ih]

/-! ### The claims -/

/-- Claim C1, as stated, is false on the code: for a consecutive
same-session pair with gap exactly zero, `buildSlices` emits nothing
when the anchor is not a `UserPromptSubmit` (the walk requires
`gap > 0` for an active slice, and the zero-duration branch fires only
for prompt anchors).  Concretely, two simultaneous `SessionStart`
events of one session produce no slice at all. -/
theorem c1_counterexample :
    buildSlices
      [{ session := some "s", ts := 0, event := "SessionStart", project := some "p", ticket := none, model := none },
       { session := some "s", ts := 0, event := "SessionStart", project := some "p", ticket := none, model := none }]
      1800000 = [] := by
  decide

/-- Claim C1 amended: for a consecutive same-session pair whose
timestamp gap is exactly zero, the walk emits a zero-duration slice
anchored at the earlier event when and only when that anchor is a
`UserPromptSubmit`; for any other anchor kind the pair contributes no
slice. -/
theorem c1_amended (sid : String) (br : Int) (curr next : Entry) (rest : List Entry)
    (hgap : next.ts = curr.ts) :
    sessionSlices sid br (curr :: next :: rest) =
      (if curr.event = "UserPromptSubmit" then [promptSliceOf sid curr] else []) ++
        sessionSlices sid br (next :: rest) := by
  rw [sessionSlices]
  congr 1
  simp only [pairSlice]
  have h0 : next.ts - curr.ts = 0 := by omega
  rw [h0]
  rw [if_neg (by intro hc; exact lt_irrefl 0 hc.1)]
  by_cases hp : curr.event = "UserPromptSubmit"
  · rw [if_pos hp, if_pos hp]
    rfl
  · rw [if_neg hp, if_neg hp]
    rfl

/-- Claim C1 witness: the amended statement at a concrete zero-gap
prompt pair and a concrete zero-gap non-prompt pair. -/
theorem c1_witness :
    (sessionSlices "s" 1800000
        [{ session := some "s", ts := 5, event := "UserPromptSubmit", project := none, ticket := none, model := none },
         { session := some "s", ts := 5, event := "SessionEnd", project := none, ticket := none, model := none }] =
      (if ("UserPromptSubmit" : String) = "UserPromptSubmit" then
          [promptSliceOf "s" { session := some "s", ts := 5, event := "UserPromptSubmit", project := none, ticket := none, model := none }]
        else []) ++
        sessionSlices "s" 1800000
          [{ session := some "s", ts := 5, event := "SessionEnd", project := none, ticket := none, model := none }]) :=
  c1_amended "s" 1800000 _ _ [] rfl

/-- Claim C5: the documented round-trip scenario.  For the session
[SessionStart at T0, prompts at T0+5min, T0+8min, T0+2h8min,
SessionEnd at T0+2h18min] with a 30-minute threshold, the builder
produces exactly the four slices 300s, 180s, 0s, 600s in chronological
order, the zero one being the prompt preceding the break. -/
theorem c5_round_trip :
    (buildSlices
        [{ session := some "s", ts := 0, event := "SessionStart", project := some "my-app", ticket := none, model := none },
         { session := some "s", ts := 300000, event := "UserPromptSubmit", project := some "my-app", ticket := none, model := none },
         { session := some "s", ts := 480000, event := "UserPromptSubmit", project := some "my-app", ticket := none, model := none },
         { session := some "s", ts := 7680000, event := "UserPromptSubmit", project := some "my-app", ticket := none, model := none },
         { session := some "s", ts := 8280000, event := "SessionEnd", project := some "my-app", ticket := none, model := none }]
        1800000).map Slice.seconds = [300, 180, 0, 600] ∧
    (buildSlices
        [{ session := some "s", ts := 0, event := "SessionStart", project := some "my-app", ticket := none, model := none },
         { session := some "s", ts := 300000, event := "UserPromptSubmit", project := some "my-app", ticket := none, model := none },
         { session := some "s", ts := 480000, event := "UserPromptSubmit", project := some "my-app", ticket := none, model := none },
         { session := some "s", ts := 7680000, event := "UserPromptSubmit", project := some "my-app", ticket := none, model := none },
         { session := some "s", ts := 8280000, event := "SessionEnd", project := some "my-app", ticket := none, model := none }]
        1800000).map Slice.isPrompt = [false, true, true, true] := by
  constructor <;> decide

/-- Claim C6: gap threshold boundary.  For a consecutive same-session
pair with gap exactly `breakMs` the walk emits no active slice — only
the zero-duration prompt slice when the anchor is a prompt; for gap
`breakMs - 1` (positive) it emits the active slice whose `seconds` is
the full gap divided by 1000. -/
theorem c6_threshold_boundary (sid : String) (br : Int) (curr next : Entry)
    (rest : List Entry) :
    (next.ts - curr.ts = br →
      sessionSlices sid br (curr :: next :: rest) =
        (if curr.event = "UserPromptSubmit" then [promptSliceOf sid curr] else []) ++
          sessionSlices sid br (next :: rest)) ∧
    (next.ts - curr.ts = br - 1 → 0 < br - 1 →
      sessionSlices sid br (curr :: next :: rest) =
        activeSliceOf sid curr (br - 1) :: sessionSlices sid br (next :: rest) ∧
      (activeSliceOf sid curr (br - 1)).seconds = secondsOf (br - 1)) := by
  constructor
  · intro hgap
    rw [sessionSlices]
    congr 1
    simp only [pairSlice, hgap]
    rw [if_neg (by intro hc; exact lt_irrefl br hc.2)]
    by_cases hp : curr.event = "UserPromptSubmit"
    · rw [if_pos hp, if_pos hp]; rfl
    · rw [if_neg hp, if_neg hp]; rfl
  · intro hgap hpos
    constructor
    · rw [sessionSlices]
      simp only [pairSlice, hgap]
      rw [if_pos ⟨hpos, by omega⟩]
      rfl
    · rfl

/-- Claim C6 witness: the boundary statement at a concrete prompt pair
with gap exactly 1800000 ms and at a concrete pair with gap
1799999 ms. -/
theorem c6_witness :
    (sessionSlices "s" 1800000
        [{ session := some "s", ts := 0, event := "UserPromptSubmit", project := none, ticket := none, model := none },
         { session := some "s", ts := 1800000, event := "SessionEnd", project := none, ticket := none, model := none }] =
      (if ("UserPromptSubmit" : String) = "UserPromptSubmit" then
          [promptSliceOf "s" { session := some "s", ts := 0, event := "UserPromptSubmit", project := none, ticket := none, model := none }]
        else []) ++
        sessionSlices "s" 1800000
          [{ session := some "s", ts := 1800000, event := "SessionEnd", project := none, ticket := none, model := none }]) ∧
    (sessionSlices "s" 1800000
        [{ session := some "s", ts := 0, event := "UserPromptSubmit", project := none, ticket := none, model := none },
         { session := some "s", ts := 1799999, event := "SessionEnd", project := none, ticket := none, model := none }] =
      activeSliceOf "s" { session := some "s", ts := 0, event := "UserPromptSubmit", project := none, ticket := none, model := none } (1800000 - 1) ::
        sessionSlices "s" 1800000
          [{ session := some "s", ts := 1799999, event := "SessionEnd", project := none, ticket := none, model := none }] ∧
      (activeSliceOf "s" { session := some "s", ts := 0, event := "UserPromptSubmit", project := none, ticket := none, model := none } (1800000 - 1)).seconds =
        secondsOf (1800000 - 1)) :=
  ⟨(c6_threshold_boundary "s" 1800000 _ _ []).1 rfl,
   (c6_threshold_boundary "s" 1800000 _ _ []).2 rfl (by decide)⟩

/-- Claim C7: trailing prompt.  For any input and session id, if the
chronologically last event of that session (the last element of its
sorted event list) is a `UserPromptSubmit`, then the last slice the
builder emits for that session is the zero-duration `isPrompt = true`
slice anchored at that event — whatever the preceding gap was, and
also for a session consisting of a single prompt event. -/
theorem c7_trailing_prompt (entries : List Entry) (br : Int) (sid : String) (e : Entry)
    (hlast : (sortTs (filterKey entrySess sid entries)).getLast? = some e)
    (hp : e.event = "UserPromptSubmit") :
    ((buildSlices entries br).filter (fun s => decide (s.session = sid))).getLast? =
      some (promptSliceOf sid e) := by
  rw [buildSlices_filter_session, buildSlices_filterKey]
  exact sessionSlices_getLast sid br _ e hlast hp

/-- Claim C7 witness: the trailing-prompt statement at a session made
of a single prompt event. -/
theorem c7_witness :
    ((buildSlices
        [{ session := some "s", ts := 42, event := "UserPromptSubmit", project := some "p", ticket := none, model := none }]
        1800000).filter (fun s => decide (s.session = "s"))).getLast? =
      some (promptSliceOf "s"
        { session := some "s", ts := 42, event := "UserPromptSubmit", project := some "p", ticket := none, model := none }) :=
  c7_trailing_prompt _ 1800000 "s" _ (by decide) rfl

/-- Claim C8: slice invariants.  Every slice the builder produces has
nonnegative `seconds`; for every session, the sum of its slice
durations equals the sum of the positive sub-threshold consecutive
gaps of its sorted event sequence (zero-duration prompt slices
contribute nothing); and that sum never exceeds the wall-clock span
of the session, last sorted timestamp minus first. -/
theorem c8_invariants :
    (∀ (entries : List Entry) (br : Int), ∀ s ∈ buildSlices entries br, 0 ≤ s.seconds) ∧
    (∀ (entries : List Entry) (br : Int) (sid : String),
      (((buildSlices entries br).filter (fun s => decide (s.session = sid))).map
          Slice.seconds).sum =
        gapSecondsSum br (sortTs (filterKey entrySess sid entries))) ∧
    (∀ (entries : List Entry) (br : Int) (sid : String) (a z : Entry),
      (sortTs (filterKey entrySess sid entries)).head? = some a →
      (sortTs (filterKey entrySess sid entries)).getLast? = some z →
      (((buildSlices entries br).filter (fun s => decide (s.session = sid))).map
          Slice.seconds).sum ≤ secondsOf (z.ts - a.ts)) := by
  refine ⟨buildSlices_seconds_nonneg, ?_, ?_⟩
  · intro entries br sid
    rw [buildSlices_filter_session, buildSlices_filterKey]
    exact sessionSlices_sum sid br _
  · intro entries br sid a z ha hz
    rw [buildSlices_filter_session, buildSlices_filterKey]
    rw [sessionSlices_sum sid br _]
    exact gapSecondsSum_le_span br _ (sortTs_chain _) a z ha hz

/-- Claim C8 witness: the three invariant parts instantiated on a
concrete two-event session (prompt at 0, session end at 300000 with a
30-minute threshold). -/
theorem c8_witness :
    (0 ≤ (activeSliceOf "s"
      { session := some "s", ts := 0, event := "UserPromptSubmit", project := none, ticket := none, model := none }
      300000).seconds) ∧
    ((((buildSlices
        [{ session := some "s", ts := 0, event := "UserPromptSubmit", project := none, ticket := none, model := none },
         { session := some "s", ts := 300000, event := "SessionEnd", project := none, ticket := none, model := none }]
        1800000).filter (fun s => decide (s.session = "s"))).map Slice.seconds).sum =
      gapSecondsSum 1800000 (sortTs (filterKey entrySess "s"
        [{ session := some "s", ts := 0, event := "UserPromptSubmit", project := none, ticket := none, model := none },
         { session := some "s", ts := 300000, event := "SessionEnd", project := none, ticket := none, model := none }]))) ∧
    ((((buildSlices
        [{ session := some "s", ts := 0, event := "UserPromptSubmit", project := none, ticket := none, model := none },
         { session := some "s", ts := 300000, event := "SessionEnd", project := none, ticket := none, model := none }]
        1800000).filter (fun s => decide (s.session = "s"))).map Slice.seconds).sum ≤
      secondsOf (({ session := some "s", ts := 300000, event := "SessionEnd", project := none, ticket := none, model := none } : Entry).ts -
        ({ session := some "s", ts := 0, event := "UserPromptSubmit", project := none, ticket := none, model := none } : Entry).ts)) :=
  ⟨c8_invariants.1
      [{ session := some "s", ts := 0, event := "UserPromptSubmit", project := none, ticket := none, model := none },
       { session := some "s", ts := 300000, event := "SessionEnd", project := none, ticket := none, model := none }]
      1800000 _ (by decide),
   c8_invariants.2.1
      [{ session := some "s", ts := 0, event := "UserPromptSubmit", project := none, ticket := none, model := none },
       { session := some "s", ts := 300000, event := "SessionEnd", project := none, ticket := none, model := none }]
      1800000 "s",
   c8_invariants.2.2
      [{ session := some "s", ts := 0, event := "UserPromptSubmit", project := none, ticket := none, model := none },
       { session := some "s", ts := 300000, event := "SessionEnd", project := none, ticket := none, model := none }]
      1800000 "s" _ _ (by decide) (by decide)⟩

/-- Claim C10: session independence.  For any interleaving of two
event collections whose second part holds no event of session `sid`,
the slices of session `sid` in the combined run are exactly the slices
the builder produces from the events of that session alone, and
exactly its slices when only the first collection is processed. -/
theorem c10_session_independence (A B L : List Entry) (br : Int) (sid : String)
    (hI : Interleave A B L) (hB : ∀ e ∈ B, entrySess e ≠ some sid) :
    (buildSlices L br).filter (fun s => decide (s.session = sid)) =
      buildSlices (filterKey entrySess sid A) br ∧
    (buildSlices L br).filter (fun s => decide (s.session = sid)) =
      (buildSlices A br).filter (fun s => decide (s.session = sid)) := by
  have h1 : filterKey entrySess sid L = filterKey entrySess sid A :=
    interleave_filterKey entrySess sid hI hB
  constructor
  · rw [buildSlices_filter_session, h1]
  · rw [buildSlices_filter_session, buildSlices_filter_session, h1]

/-- Claim C10 witness: the independence statement on a concrete
interleaving of a two-event session "x" with an overlapping one-event
session "y". -/
theorem c10_witness :
    ((buildSlices
        [{ session := some "x", ts := 0, event := "UserPromptSubmit", project := some "p", ticket := none, model := none },
         { session := some "y", ts := 30000, event := "UserPromptSubmit", project := some "q", ticket := none, model := none },
         { session := some "x", ts := 60000, event := "SessionEnd", project := some "p", ticket := none, model := none }]
        1800000).filter (fun s => decide (s.session = "x")) =
      buildSlices (filterKey entrySess "x"
        [{ session := some "x", ts := 0, event := "UserPromptSubmit", project := some "p", ticket := none, model := none },
         { session := some "x", ts := 60000, event := "SessionEnd", project := some "p", ticket := none, model := none }])
        1800000) ∧
    ((buildSlices
        [{ session := some "x", ts := 0, event := "UserPromptSubmit", project := some "p", ticket := none, model := none },
         { session := some "y", ts := 30000, event := "UserPromptSubmit", project := some "q", ticket := none, model := none },
         { session := some "x", ts := 60000, event := "SessionEnd", project := some "p", ticket := none, model := none }]
        1800000).filter (fun s => decide (s.session = "x")) =
      (buildSlices
        [{ session := some "x", ts := 0, event := "UserPromptSubmit", project := some "p", ticket := none, model := none },
         { session := some "x", ts := 60000, event := "SessionEnd", project := some "p", ticket := none, model := none }]
        1800000).filter (fun s => decide (s.session = "x"))) :=
  c10_session_independence
    [{ session := some "x", ts := 0, event := "UserPromptSubmit", project := some "p", ticket := none, model := none },
     { session := some "x", ts := 60000, event := "SessionEnd", project := some "p", ticket := none, model := none }]
    [{ session := some "y", ts := 30000, event := "UserPromptSubmit", project := some "q", ticket := none, model := none }]
    _ 1800000 "x"
    (Interleave.left (Interleave.right (Interleave.left Interleave.nil)))
    (by decide)

/-- Claim C2, as stated, is false on the code: a session whose only
event is a `UserPromptSubmit` with an unparseable timestamp makes the
builder throw (the trailing-prompt push calls `dateKey`, i.e.
`toISOString` on an invalid date, which raises a `RangeError`), so the
builder does not return normally on every input with invalid
timestamps. -/
theorem c2_counterexample :
    buildSlicesO
      [{ session := some "s", ts := none, event := "UserPromptSubmit", project := none, ticket := none, model := none }]
      1800000 = .error () := rfl

/-- Claim C2 amended: a consecutive pair one of whose timestamps is
invalid never contributes an active slice — when it contributes a
slice at all, that slice is zero-duration with `isPrompt = true`
(possible only for a prompt anchor whose own timestamp is valid) — but
the builder is not total: it throws whenever a slice would be pushed
for a prompt anchor whose own timestamp is invalid, in particular on a
session consisting of one prompt event with an unparseable
timestamp. -/
theorem c2_amended :
    (∀ (sid : String) (br : Int) (curr next : EntryO) (s : Slice),
      (curr.ts = none ∨ next.ts = none) →
      pairSliceO sid br curr next = .ok (some s) →
      s.seconds = 0 ∧ s.isPrompt = true) ∧
    (∀ (br : Int) (e : EntryO) (sid : String),
      e.session = some sid → sid ≠ "" → e.ts = none →
      e.event = "UserPromptSubmit" →
      buildSlicesO [e] br = .error ()) :=
  ⟨fun sid br curr next s hinv hok => pairSliceO_invalid sid br curr next s hinv hok,
   fun br e sid h1 h2 h3 h4 => buildSlicesO_singleton_invalid_prompt br e sid h1 h2 h3 h4⟩

/-- Claim C2 witness: the amended statement at a concrete pair (valid
prompt anchor at 0, follower with invalid timestamp) and at a concrete
lone invalid-timestamp prompt. -/
theorem c2_witness :
    (({ session := "s", project := none, ticket := none, model := none, date := dateKey 0, seconds := 0, isPrompt := true } : Slice).seconds = 0 ∧
      ({ session := "s", project := none, ticket := none, model := none, date := dateKey 0, seconds := 0, isPrompt := true } : Slice).isPrompt = true) ∧
    buildSlicesO
      [{ session := some "s", ts := none, event := "UserPromptSubmit", project := none, ticket := none, model := none }]
      1800000 = .error () :=
  ⟨c2_amended.1 "s" 1800000
      { session := some "s", ts := some 0, event := "UserPromptSubmit", project := none, ticket := none, model := none }
      { session := some "s", ts := none, event := "SessionEnd", project := none, ticket := none, model := none }
      _ (Or.inr rfl) rfl,
   c2_amended.2 1800000
      { session := some "s", ts := none, event := "UserPromptSubmit", project := none, ticket := none, model := none }
      "s" rfl (by decide) rfl rfl⟩

/-- Claim C4, as stated, is false on the code: a missing file does not
contribute zero events without error — `createReadStream` on a missing
path emits an `ENOENT` error that `parseEntries` never handles, so the
call fails instead of returning a list. -/
theorem c4_counterexample :
    parseEntries (fun v => some v) [(none : Option (List String))] = .error () := rfl

/-- Claim C4 amended: over files that exist, `parseEntries` returns
the concatenation, in file order then line order, of the successfully
parsed lines of each file, skipping blank lines and lines the parse
oracle rejects, and an empty file contributes zero events; but a
missing file anywhere in the list makes the call fail instead of
contributing zero events. -/
theorem c4_amended :
    (∀ (α : Type) (parse : String → Option α) (contents : List (List String)),
      parseEntries parse (contents.map some) = .ok (contents.flatMap (parseLines parse))) ∧
    (∀ (α : Type) (parse : String → Option α) (lines : List String),
      parseLines parse lines =
        lines.filterMap (fun line =>
          if line.toList.all Char.isWhitespace then none else parse line)) ∧
    (∀ (α : Type) (parse : String → Option α) (files : List (Option (List String))),
      none ∈ files → parseEntries parse files = .error ()) :=
  ⟨fun _ parse contents => parseEntries_ok parse contents,
   fun _ parse lines => parseLines_eq_filterMap parse lines,
   fun _ parse files h => parseEntries_error parse files h⟩

/-- Claim C4 witness: the amended statement at concrete files — two
present files (one with a blank line) parsed with the identity oracle,
and a list containing a missing file. -/
theorem c4_witness :
    (parseEntries (fun v => some v) ([["a", ""], ["b"]].map some) =
      .ok ([["a", ""], ["b"]].flatMap (parseLines (fun v => some v)))) ∧
    (parseLines (fun v => some v) ["a", "", "b"] =
      (["a", "", "b"] : List String).filterMap (fun line =>
        if line.toList.all Char.isWhitespace then none else some line)) ∧
    (parseEntries (fun v => some v) [some ["a"], none] = .error ()) :=
  ⟨c4_amended.1 String (fun v => some v) [["a", ""], ["b"]],
   c4_amended.2.1 String (fun v => some v) ["a", "", "b"],
   c4_amended.2.2 String (fun v => some v) [some ["a"], none] (by decide)⟩

/-- Claim C9: for every slice collection and key function, the group
the Aggregator reports under a key holds the cardinality of the
distinct session-id set of the slices mapped to that key, the number
of those slices with `isPrompt` true, and the sum of `seconds` over
all of them, prompt or not; a key with no slices gets no group. -/
theorem c9_aggregate (slices : List Slice) (kf : Slice → Option String) (k : String) :
    lookupKey (aggregate slices kf) k =
      (if slices.filter (fun s => decide (keyOf kf s = some k)) = [] then none
       else some
         { sessions :=
             ((slices.filter (fun s => decide (keyOf kf s = some k))).map
               Slice.session).toFinset.card
           prompts :=
             ((slices.filter (fun s => decide (keyOf kf s = some k))).filter
               Slice.isPrompt).length
           active :=
             ((slices.filter (fun s => decide (keyOf kf s = some k))).map
               Slice.seconds).sum }) := by
  have hagg : aggregate slices kf =
      (aggLoop kf [] slices).map (fun p => (p.1,
        (fun g : AggAcc => ({ sessions := g.sessions.length, prompts := g.prompts, active := g.active } : AggOut)) p.2)) := rfl
  rw [hagg, lookupKey_map_value (aggLoop kf [] slices)
    (fun g : AggAcc => ({ sessions := g.sessions.length, prompts := g.prompts, active := g.active } : AggOut)) k]
  rw [aggLoop_lookup]
  have hnil : lookupKey ([] : List (String × AggAcc)) k = none := rfl
  rw [hnil, foldl_go_none]
  by_cases hfil : slices.filter (fun s => decide (keyOf kf s = some k)) = []
  · rw [if_pos hfil, if_pos hfil]
    rfl
  · rw [if_neg hfil, if_neg hfil]
    rw [show ∀ (x : AggAcc) (f : AggAcc → AggOut), Option.map f (some x) = some (f x) from fun x f => rfl]
    rw [foldl_addSlice_sessions, foldl_addSlice_prompts, foldl_addSlice_active]
    rw [insFold_length, Nat.zero_add, zero_add]

/-- Claim C3, as stated, is false on the code: in the
day-project-ticket view a slice without a ticket is counted in its
day-project totals but dropped from the ticket level (no sentinel), so
the inner ticket totals do not always sum to the outer total: one
300-second no-ticket slice gives a project group with `active = 300`
and an empty ticket map. -/
theorem c3_counterexample :
    ¬ ∀ (slices : List Slice), ∀ d ∈ buildDayProjectTicket slices, ∀ q ∈ d.2,
        ticketActiveSum q.2.tickets = q.2.active := by
  intro h
  have hcomp : buildDayProjectTicket
      [{ session := "a", project := some "p", ticket := none, model := none, date := 0, seconds := 300, isPrompt := false }] =
      [(0, [("p", { date := 0, project := "p", prompts := 0, active := 0 + 300, tickets := [] })])] := rfl
  have hq := h
    [{ session := "a", project := some "p", ticket := none, model := none, date := 0, seconds := 300, isPrompt := false }]
    (0, [("p", { date := 0, project := "p", prompts := 0, active := 0 + 300, tickets := [] })])
    (by rw [hcomp]; exact List.mem_singleton.mpr rfl)
    ("p", { date := 0, project := "p", prompts := 0, active := 0 + 300, tickets := [] })
    (List.mem_singleton.mpr rfl)
  rw [ticketActiveSum] at hq
  norm_num at hq

/-- Claim C3 amended: in the project-to-ticket timesheet view, where
missing projects and tickets map to the sentinels "(unknown)" and
"(untracked)", the inner ticket totals (active seconds and prompt
counts) of every project group sum exactly to the totals of that group;
in the day-project-ticket view, missing projects still map to
"(unknown)" but slices without a ticket are counted only at the
day-project level and omitted from the ticket map, so over slice
collections with nonnegative durations the inner ticket sums are only
bounded above by the outer totals. -/
theorem c3_amended :
    (∀ (slices : List Slice), ∀ q ∈ buildTimesheet slices,
      tsTicketActiveSum q.2.tickets = q.2.active ∧
      tsTicketPromptSum q.2.tickets = q.2.prompts) ∧
    (∀ (slices : List Slice), (∀ s ∈ slices, 0 ≤ s.seconds) →
      ∀ d ∈ buildDayProjectTicket slices, ∀ q ∈ d.2,
        ticketActiveSum q.2.tickets ≤ q.2.active ∧
        ticketPromptSum q.2.tickets ≤ q.2.prompts) := by
  constructor
  · intro slices q hq
    exact ⟨(buildTimesheet_inv slices q hq).2.1, (buildTimesheet_inv slices q hq).2.2⟩
  · intro slices hss d hd q hq
    exact ⟨(buildDayProjectTicket_inv slices hss d hd q hq).2.1,
           (buildDayProjectTicket_inv slices hss d hd q hq).2.2⟩

/-- Claim C3 witness: the amended statement at a concrete ticketed
slice for the timesheet view and at a concrete unticketed slice for
the day view. -/
theorem c3_witness :
    (tsTicketActiveSum ([("T", { sessions := ["a"], prompts := 1, active := 0 + 300 })] : List (String × TsTicket)) =
      ({ sessions := ["a"], prompts := 1, active := 0 + 300, tickets := [("T", { sessions := ["a"], prompts := 1, active := 0 + 300 })] } : TsProj).active ∧
      tsTicketPromptSum ([("T", { sessions := ["a"], prompts := 1, active := 0 + 300 })] : List (String × TsTicket)) =
      ({ sessions := ["a"], prompts := 1, active := 0 + 300, tickets := [("T", { sessions := ["a"], prompts := 1, active := 0 + 300 })] } : TsProj).prompts) ∧
    (ticketActiveSum ([] : List (String × TicketGroup)) ≤
        ({ date := 0, project := "p", prompts := 0, active := 0 + 300, tickets := [] } : ProjGroup).active ∧
      ticketPromptSum ([] : List (String × TicketGroup)) ≤
        ({ date := 0, project := "p", prompts := 0, active := 0 + 300, tickets := [] } : ProjGroup).prompts) := by
  constructor
  · exact c3_amended.1
      [{ session := "a", project := some "p", ticket := some "T", model := none, date := 0, seconds := 300, isPrompt := true }]
      ("p", { sessions := ["a"], prompts := 1, active := 0 + 300, tickets := [("T", { sessions := ["a"], prompts := 1, active := 0 + 300 })] })
      (List.mem_singleton.mpr rfl)
  · exact c3_amended.2
      [{ session := "a", project := some "p", ticket := none, model := none, date := 0, seconds := 300, isPrompt := false }]
      (by intro s hs; rw [List.mem_singleton] at hs; rw [hs]; decide)
      (0, [("p", { date := 0, project := "p", prompts := 0, active := 0 + 300, tickets := [] })])
      (List.mem_singleton.mpr rfl)
      ("p", { date := 0, project := "p", prompts := 0, active := 0 + 300, tickets := [] })
      (List.mem_singleton.mpr rfl)
